import Mathlib

/-!
Verification of the Recipe Keeper extraction/normalization core.

This file gives a shallow embedding of the recipe-extraction pipeline of the
repository (JavaScript sources `js/utils.js`, `js/recipeExtractor.js`,
`js/ocr.js`) and proves properties of it.  Strings are modelled as `String`
(lists of characters), JavaScript regular-expression operations are embedded
as explicit backtracking matchers with the same greedy/lazy semantics, and
fallible JavaScript code (exceptions caught by the extraction loop) is
modelled with `Option`.  Scanning functions that advance through a string use
an explicit fuel argument bounded by the string length; each scanning step
consumes at least one character, so fuel `length + 1` gives the exact
behaviour of the JavaScript global-regex scans they embed.
-/

namespace RecipeApp

/-! ## Character classes used by the embedded JavaScript regexes -/

/-- JavaScript `\s` (the whitespace characters relevant to this code base). -/
def jsWs (c : Char) : Bool :=
  c = ' ' || c = '\t' || c = '\n' || c = '\r' || c = '\x0b' || c = '\x0c'

/-- JavaScript `.` : any character except line terminators. -/
def jsDot (c : Char) : Bool := !(c = '\n' || c = '\r')

/-- JavaScript `\w`: word characters, for `\b` boundaries. -/
def isWordChar (c : Char) : Bool := c.isAlphanum || c = '_'

/-- `[a-zA-Z]`. -/
def asciiAlpha (c : Char) : Bool :=
  ('a' ≤ c && c ≤ 'z') || ('A' ≤ c && c ≤ 'Z')

/-- `[0-9a-fA-F]`. -/
def hexDigit (c : Char) : Bool :=
  c.isDigit || ('a' ≤ c && c ≤ 'f') || ('A' ≤ c && c ≤ 'F')

/-- Numeric value of a list of decimal digits (JS `parseInt(_, 10)`). -/
def digitsToNat (ds : List Char) : Nat :=
  ds.foldl (fun a c => 10 * a + (c.toNat - '0'.toNat)) 0

/-- Numeric value of a list of hex digits (JS `parseInt(_, 16)`). -/
def hexToNat (ds : List Char) : Nat :=
  ds.foldl (fun a c =>
    16 * a +
      (if c.isDigit then c.toNat - '0'.toNat
       else if 'a' ≤ c && c ≤ 'f' then c.toNat - 'a'.toNat + 10
       else c.toNat - 'A'.toNat + 10)) 0

/-- JavaScript `String.prototype.trim` on a character list. -/
def jsTrim (cs : List Char) : List Char :=
  ((cs.dropWhile jsWs).reverse.dropWhile jsWs).reverse

/-- Case-insensitive prefix test (for regexes carrying the `i` flag). -/
def isPrefixCI : List Char → List Char → Bool
  | [], _ => true
  | _ :: _, [] => false
  | a :: as, b :: bs => (a.toLower == b.toLower) && isPrefixCI as bs

/-- Suffix of `hay` after the first case-insensitive occurrence of `needle`,
or `none` when `needle` does not occur. -/
def dropThroughCI (needle : List Char) : Nat → List Char → Option (List Char)
  | 0, _ => none
  | _fuel + 1, [] => if needle.isEmpty then some [] else none
  | fuel + 1, c :: t =>
    if isPrefixCI needle (c :: t) then some ((c :: t).drop needle.length)
    else dropThroughCI needle fuel t

/-! ## `Validator.sanitizeText` (`js/utils.js`)

The source applies three sequential `String.replace` passes and a trim:
remove `<script …>…</script>` blocks, remove `<…>` tags, escape the
characters `< > & " '`, and `trim()`. -/

/-- One scanning step of the global regex
`/<script\b[^<]*(?:(?!<\/script>)<[^<]*)*<\/script>/gi` used with an empty
replacement: a match starts at a case-insensitive `<script` followed by a
word boundary and extends through the first subsequent `</script>`; when no
closing tag follows, the regex does not match at this position and the scan
advances one character. -/
def stripScriptsGo : Nat → List Char → List Char
  | 0, cs => cs
  | _fuel + 1, [] => []
  | fuel + 1, c :: t =>
    if isPrefixCI "<script".data (c :: t) then
      let after := (c :: t).drop 7
      let boundaryOk := match after with
        | [] => true
        | d :: _ => !isWordChar d
      if boundaryOk then
        match dropThroughCI "</script>".data (after.length + 1) after with
        | some rest => stripScriptsGo fuel rest
        | none => c :: stripScriptsGo fuel t
      else c :: stripScriptsGo fuel t
    else c :: stripScriptsGo fuel t

def stripScripts (cs : List Char) : List Char :=
  stripScriptsGo (cs.length + 1) cs

/-- Global replace of `/<[^>]*>/g` by `rep`: from a `<`, the tag runs to the
first following `>`; a `<` with no later `>` is left in place. -/
def stripTagsGo (rep : List Char) : Nat → List Char → List Char
  | 0, cs => cs
  | _fuel + 1, [] => []
  | fuel + 1, c :: t =>
    if c = '<' then
      let inside := t.dropWhile (fun d => !(d = '>'))
      match inside with
      | '>' :: rest => rep ++ stripTagsGo rep fuel rest
      | _ => c :: stripTagsGo rep fuel t
    else c :: stripTagsGo rep fuel t

def stripTags (rep : List Char) (cs : List Char) : List Char :=
  stripTagsGo rep (cs.length + 1) cs

/-- The escape map of `sanitizeText`: `< > & " '` become HTML entities. -/
def escapeSpecial (c : Char) : List Char :=
  if c = '<' then "&lt;".data
  else if c = '>' then "&gt;".data
  else if c = '&' then "&amp;".data
  else if c = '"' then "&quot;".data
  else if c = '\'' then "&#x27;".data
  else [c]

/-- `Validator.sanitizeText` (`js/utils.js` lines 93-112). -/
def sanitizeText (s : String) : String :=
  if s = "" then ""
  else String.mk (jsTrim ((stripTags [] (stripScripts s.data)).flatMap escapeSpecial))

/-! ## `Validator` URL/title/number checks (`js/utils.js`) -/

/-- Modelled from the spec: the browser `new URL` collaborator together with
the `http:`/`https:` protocol check of `validateUrl`; a well-formed absolute
http(s) URL is accepted and returned unchanged (the browser's normalisation
is the identity on the already-normalised URLs used in this development). -/
def parseHttpUrl (s : String) : Option String :=
  if ("http://".data.isPrefixOf s.data && s.length > 7) ||
     ("https://".data.isPrefixOf s.data && s.length > 8) then some s else none

/-- `Validator.validateUrl`: trim, bound the length by
`CONFIG.VALIDATION.MAX_URL_LENGTH = 2000`, and require an http(s) URL. -/
def validateUrl (url : String) : Option String :=
  let trimmed := String.mk (jsTrim url.data)
  if trimmed.length = 0 || trimmed.length > 2000 then none
  else parseHttpUrl trimmed

/-- `Validator.validateTitle`: sanitize, then require length in `[1, 200]`. -/
def validateTitle (title : String) : Option String :=
  if title = "" then none
  else
    let sanitized := sanitizeText title
    if sanitized.length < 1 || sanitized.length > 200 then none
    else some sanitized

/-- `Validator.validateServings` on numeric input: integer in `[1, 100]`. -/
def validateServings (n : Int) : Option Int :=
  if n < 1 || n > 100 then none else some n

/-- `Validator.validateTime` on numeric input: integer in `[0, 1440]`. -/
def validateTime (t : Int) : Option Int :=
  if t < 0 || t > 1440 then none else some t

/-! ## Recipe data model -/

structure Ingredient where
  amount : String
  unit : String
  item : String
deriving DecidableEq

/-- A candidate recipe as passed to `RecipeValidator.validateRecipe`. -/
structure Candidate where
  url : String
  title : String
  servings : Int
  prepTime : Int
  cookTime : Int
  ingredients : List Ingredient
  steps : List String
  imageUrl : Option String
deriving DecidableEq

/-- `RecipeValidator.validateIngredients`: sanitize each field, then drop
ingredients whose sanitized `item` is empty. -/
def validateIngredients (l : List Ingredient) : List Ingredient :=
  (l.map fun i =>
    { amount := sanitizeText i.amount, unit := sanitizeText i.unit,
      item := sanitizeText i.item }).filter (fun i => i.item.length > 0)

/-- `RecipeValidator.validateSteps`: sanitize each step, drop empty ones. -/
def validateSteps (l : List String) : List String :=
  (l.map sanitizeText).filter (fun s => s.length > 0)

/-- The `validatedRecipe` object built field-by-field by `validateRecipe`;
a key the source never sets is `none`. -/
structure ValidatedFields where
  url : Option String := none
  title : Option String := none
  servings : Option Int := none
  prepTime : Option Int := none
  cookTime : Option Int := none
  ingredients : Option (List Ingredient) := none
  steps : Option (List String) := none
  imageUrl : Option (Option String) := none
deriving DecidableEq

structure ValidationResult where
  isValid : Bool
  errors : List String
  validatedRecipe : Option ValidatedFields
deriving DecidableEq

/-- The error list accumulated by `RecipeValidator.validateRecipe`
(`js/utils.js` lines 124-193), one conditional push per rule, in source
order.  `CONFIG.VALIDATION.MIN_INGREDIENTS = MIN_STEPS = 1`. -/
def recipeErrors (r : Candidate) : List String :=
  (if validateUrl r.url = none then ["Invalid recipe URL"] else []) ++
  (if validateTitle r.title = none then ["Invalid recipe title"] else []) ++
  (if validateServings r.servings = none then ["Invalid serving count"] else []) ++
  (if validateTime r.prepTime = none then ["Invalid preparation time"] else []) ++
  (if validateTime r.cookTime = none then ["Invalid cooking time"] else []) ++
  (if r.ingredients.length < 1 then ["Recipe must have at least one ingredient"] else []) ++
  (if r.steps.length < 1 then ["Recipe must have at least one step"] else [])

/-- The `validatedRecipe` object as built field-by-field by `validateRecipe`:
each key is set exactly when the corresponding rule's else-branch runs. -/
def validatedFieldsOf (r : Candidate) : ValidatedFields :=
  { url := validateUrl r.url, title := validateTitle r.title,
    servings := validateServings r.servings,
    prepTime := validateTime r.prepTime, cookTime := validateTime r.cookTime,
    ingredients :=
      if r.ingredients.length < 1 then none
      else some (validateIngredients r.ingredients),
    steps :=
      if r.steps.length < 1 then none else some (validateSteps r.steps),
    imageUrl := match r.imageUrl with
      | some s => if s ≠ "" then some (validateUrl s) else none
      | none => none }

/-- `RecipeValidator.validateRecipe`: `isValid` iff no errors were pushed,
and `validatedRecipe` is `null` unless the error list is empty. -/
def validateRecipe (r : Candidate) : ValidationResult :=
  { isValid := (recipeErrors r).isEmpty, errors := recipeErrors r,
    validatedRecipe :=
      if (recipeErrors r).isEmpty then some (validatedFieldsOf r) else none }

/-! ## `Formatter.parseDuration` (`js/utils.js` lines 287-296)

The regex `/PT(?:(\d+)H)?(?:(\d+)M)?/` matches at the first occurrence of
the literal `PT`; each group matches a maximal digit run directly followed
by the corresponding letter (no other backtracking is possible since `H`
and `M` are not digits). -/

/-- Suffix after the first occurrence of `PT`, or `none`. -/
def splitAtPT : List Char → Option (List Char)
  | [] => none
  | 'P' :: 'T' :: t => some t
  | _ :: t => splitAtPT t

/-- The two capture groups of `/PT(?:(\d+)H)?(?:(\d+)M)?/`, or `none` when
the regex does not match at all. -/
def durGroups (s : String) : Option (Option Nat × Option Nat) :=
  match splitAtPT s.data with
  | none => none
  | some rest =>
    let hrun := rest.takeWhile Char.isDigit
    let hoursMatch := !hrun.isEmpty && ((rest.drop hrun.length).head? == some 'H')
    let rest2 := if hoursMatch then rest.drop (hrun.length + 1) else rest
    let mrun := rest2.takeWhile Char.isDigit
    let minutesMatch := !mrun.isEmpty && ((rest2.drop mrun.length).head? == some 'M')
    some (if hoursMatch then some (digitsToNat hrun) else none,
          if minutesMatch then some (digitsToNat mrun) else none)

/-- `Formatter.parseDuration`: `null` for falsy input or no match, else
`hours * 60 + minutes` with absent groups counted as zero. -/
def parseDuration (s : String) : Option Nat :=
  if s = "" then none
  else match durGroups s with
    | none => none
    | some (h, m) => some (60 * h.getD 0 + m.getD 0)

/-- The use of `parseDuration` in `parseJsonLdRecipe`
(`if (minutes) recipe.prepTime = minutes;`): the field is set only when the
parsed value is truthy, i.e. nonzero. -/
def durationToSet (s : String) : Option Nat :=
  match parseDuration s with
  | some m => if m ≠ 0 then some m else none
  | none => none

/-- Neither the hours group nor the minutes group of the duration regex is
present in `s` (either no `PT` occurs, or both groups fail to match). -/
def noDurGroups (s : String) : Bool :=
  match durGroups s with
  | none => true
  | some (none, none) => true
  | some _ => false

/-! ## `RecipeExtractor.decodeHtmlEntities` (`js/recipeExtractor.js`)

The source first decodes the text through a detached `<textarea>` (the
browser's HTML character-reference decoder, a collaborator outside the
repository), then applies an explicit entity map in insertion order, then a
decimal-entity regex pass, then a hex-entity regex pass. -/

/-- A decimal character reference `&#NN;` at the head of the list: decoded
character and consumed length.  JS `String.fromCharCode` takes the code
modulo 2^16; invalid scalar values collapse to `Char.ofNat`'s default. -/
def decRefAt (cs : List Char) : Option (Char × Nat) :=
  match cs with
  | '&' :: '#' :: rest =>
    let ds := rest.takeWhile Char.isDigit
    if !ds.isEmpty && ((rest.drop ds.length).head? == some ';') then
      some (Char.ofNat (digitsToNat ds % 65536), ds.length + 3)
    else none
  | _ => none

/-- A hex character reference `&#xHH;` at the head of the list. -/
def hexRefAt (cs : List Char) : Option (Char × Nat) :=
  match cs with
  | '&' :: '#' :: 'x' :: rest =>
    let ds := rest.takeWhile hexDigit
    if !ds.isEmpty && ((rest.drop ds.length).head? == some ';') then
      some (Char.ofNat (hexToNat ds % 65536), ds.length + 4)
    else none
  | _ => none

/-- Named character references decoded by the browser step.  Modelled from
the spec: the named entities the decoder contract lists (`&amp;`, `&lt;`,
`&gt;`, `&quot;`, `&nbsp;`, `&apos;`); `&nbsp;` decodes to U+00A0. -/
def namedRefs : List (List Char × Char) :=
  [("&amp;".data, '&'), ("&lt;".data, '<'), ("&gt;".data, '>'),
   ("&quot;".data, '"'), ("&nbsp;".data, ' '), ("&apos;".data, '\'')]

/-- One character reference at the head of the list, as decoded by the
browser `<textarea>` step: a named reference or a numeric one. -/
def parseCharRef (cs : List Char) : Option (Char × Nat) :=
  match namedRefs.find? (fun p => p.1.isPrefixOf cs) with
  | some p => some (p.2, p.1.length)
  | none =>
    match decRefAt cs with
    | some r => some r
    | none => hexRefAt cs

/-- Modelled from the spec: the browser `<textarea>` entity-decoding step
(`textarea.innerHTML = text; textarea.value`), which decodes character
references and copies all other characters verbatim. -/
def browserDecodeGo : Nat → List Char → List Char
  | 0, cs => cs
  | _fuel + 1, [] => []
  | fuel + 1, c :: t =>
    if c = '&' then
      match parseCharRef (c :: t) with
      | some (d, k) => d :: browserDecodeGo fuel ((c :: t).drop k)
      | none => c :: browserDecodeGo fuel t
    else c :: browserDecodeGo fuel t

def browserDecode (cs : List Char) : List Char :=
  browserDecodeGo (cs.length + 1) cs

/-- Global replacement of a literal pattern (`new RegExp(entity, 'g')` on a
regex-free literal): leftmost non-overlapping occurrences. -/
def replaceAllLit (needle rep : List Char) : Nat → List Char → List Char
  | 0, cs => cs
  | _fuel + 1, [] => []
  | fuel + 1, c :: t =>
    if !needle.isEmpty && needle.isPrefixOf (c :: t) then
      rep ++ replaceAllLit needle rep fuel ((c :: t).drop needle.length)
    else c :: replaceAllLit needle rep fuel t

/-- The `entityMap` of `decodeHtmlEntities`, in object-literal insertion
order (the order `Object.entries` iterates). -/
def entityPairs : List (List Char × List Char) :=
  [("&amp;#32;".data, [' ']), ("&#32;".data, [' ']),
   ("&amp;#39;".data, ['\'']), ("&#39;".data, ['\'']),
   ("&amp;#x27;".data, ['\'']), ("&#x27;".data, ['\'']),
   ("&amp;".data, ['&']), ("&lt;".data, ['<']), ("&gt;".data, ['>']),
   ("&quot;".data, ['"']), ("&nbsp;".data, [' ']), ("&apos;".data, ['\''])]

/-- Sequential application of the twelve entity-map replacements. -/
def entityMapPass (cs : List Char) : List Char :=
  entityPairs.foldl (fun acc p => replaceAllLit p.1 p.2 (acc.length + 1) acc) cs

/-- The `/&#(\d+);/g` pass. -/
def decPassGo : Nat → List Char → List Char
  | 0, cs => cs
  | _fuel + 1, [] => []
  | fuel + 1, c :: t =>
    match decRefAt (c :: t) with
    | some (d, k) => d :: decPassGo fuel ((c :: t).drop k)
    | none => c :: decPassGo fuel t

def decPass (cs : List Char) : List Char := decPassGo (cs.length + 1) cs

/-- The `/&#x([0-9a-fA-F]+);/g` pass. -/
def hexPassGo : Nat → List Char → List Char
  | 0, cs => cs
  | _fuel + 1, [] => []
  | fuel + 1, c :: t =>
    match hexRefAt (c :: t) with
    | some (d, k) => d :: hexPassGo fuel ((c :: t).drop k)
    | none => c :: hexPassGo fuel t

def hexPass (cs : List Char) : List Char := hexPassGo (cs.length + 1) cs

/-- `RecipeExtractor.decodeHtmlEntities`: falsy input is returned unchanged;
otherwise the browser decode, the entity map, the decimal pass and the hex
pass run in sequence. -/
def decodeHtmlEntities (s : String) : String :=
  if s = "" then s
  else String.mk (hexPass (decPass (entityMapPass (browserDecode s.data))))

/-- Some pass of `decodeHtmlEntities` can decode something at the head of
the list: a character reference for the browser step, an entity-map key, or
a numeric reference for the regex passes. -/
def canDecodeAt (cs : List Char) : Bool :=
  (parseCharRef cs).isSome || entityPairs.any (fun p => p.1.isPrefixOf cs) ||
  (decRefAt cs).isSome || (hexRefAt cs).isSome

/-- `s` contains no remaining HTML entities: no suffix beginning with `&`
is decodable by any pass of `decodeHtmlEntities`. -/
def noEntities : List Char → Bool
  | [] => true
  | c :: t => (if c = '&' then !canDecodeAt (c :: t) else true) && noEntities t

/-! ## A small backtracking regex engine

The HTML-pattern extractors of `js/recipeExtractor.js` are driven by
JavaScript regexes whose quantified subexpressions are all character
classes.  The engine below matches a sequence of items with exactly the
JavaScript backtracking order: greedy quantifiers try the longest
consumption first, lazy ones the shortest, optional groups try presence
first, and alternations are tried left to right. -/

inductive Quant where
  | one | opt | star | starL | plus
deriving DecidableEq

inductive RItem where
  /-- A literal string. -/
  | lit (s : List Char)
  /-- An alternation of literal strings, tried in order. -/
  | alts (ss : List (List Char))
  /-- A quantified character class. -/
  | cls (p : Char → Bool) (q : Quant)
  /-- A capturing group. -/
  | capGrp (idx : Nat) (items : List RItem)
  /-- An optional non-capturing group `(?:…)?` (greedy). -/
  | grpOpt (items : List RItem)
  /-- A lookahead `(?=lit₁[cls]|…|$)` over literal-plus-class alternatives;
  `allowEnd` is the `$` alternative. -/
  | look (lookAlts : List (List Char × Option (Char → Bool))) (allowEnd : Bool)

/-- Captured groups: group index paired with captured text. -/
abbrev Caps := List (Nat × List Char)

def firstSome : List α → (α → Option β) → Option β
  | [], _ => none
  | a :: as, f =>
    match f a with
    | some b => some b
    | none => firstSome as f

/-- Candidate consumption lengths for a quantified character class, in
JavaScript backtracking order. -/
def clsCands (p : Char → Bool) (q : Quant) (cs : List Char) : List Nat :=
  let run := (cs.takeWhile p).length
  match q with
  | .one => if 1 ≤ run then [1] else []
  | .opt => if 1 ≤ run then [1, 0] else [0]
  | .star => (List.range (run + 1)).map (fun i => run - i)
  | .starL => List.range (run + 1)
  | .plus => (List.range run).map (fun i => run - i)

/-- Prefix test honouring the `i` flag. -/
def litPrefix (ci : Bool) (s cs : List Char) : Bool :=
  if ci then isPrefixCI s cs else s.isPrefixOf cs

/-- One lookahead alternative holds at the current position. -/
def lookHolds (ci : Bool) (cs : List Char)
    (a : List Char × Option (Char → Bool)) : Bool :=
  litPrefix ci a.1 cs &&
    (match a.2 with
     | none => true
     | some p =>
       match (cs.drop a.1.length).head? with
       | some c => p c
       | none => false)

mutual

/-- Structural size of a pattern, bounding the recursion depth of the
matcher. -/
def itemSize : RItem → Nat
  | .lit _ => 1
  | .alts _ => 1
  | .cls _ _ => 1
  | .capGrp _ items => 1 + itemsSize items
  | .grpOpt items => 1 + itemsSize items
  | .look _ _ => 1

def itemsSize : List RItem → Nat
  | [] => 0
  | i :: rest => itemSize i + itemsSize rest

end

/-- Backtracking matcher in continuation-passing style; the continuation
receives the captures and the remaining input.  The fuel argument is only
a structural-recursion bound: `itemsSize items + 1` suffices, since every
recursive call is on a pattern of strictly smaller size. -/
def matchSeqGo (ci : Bool) : Nat → List RItem → List Char → Caps →
    (Caps → List Char → Option (Caps × List Char)) → Option (Caps × List Char)
  | 0, _, _, _, _ => none
  | _fuel + 1, [], cs, caps, k => k caps cs
  | fuel + 1, .lit s :: rest, cs, caps, k =>
    if litPrefix ci s cs then matchSeqGo ci fuel rest (cs.drop s.length) caps k
    else none
  | fuel + 1, .alts ss :: rest, cs, caps, k =>
    firstSome ss fun s =>
      if litPrefix ci s cs then matchSeqGo ci fuel rest (cs.drop s.length) caps k
      else none
  | fuel + 1, .cls p q :: rest, cs, caps, k =>
    firstSome (clsCands p q cs) fun n => matchSeqGo ci fuel rest (cs.drop n) caps k
  | fuel + 1, .capGrp idx items :: rest, cs, caps, k =>
    matchSeqGo ci fuel items cs caps fun caps' cs' =>
      matchSeqGo ci fuel rest cs'
        (caps' ++ [(idx, cs.take (cs.length - cs'.length))]) k
  | fuel + 1, .grpOpt items :: rest, cs, caps, k =>
    match matchSeqGo ci fuel items cs caps
        (fun caps' cs' => matchSeqGo ci fuel rest cs' caps' k) with
    | some r => some r
    | none => matchSeqGo ci fuel rest cs caps k
  | fuel + 1, .look lookAlts allowEnd :: rest, cs, caps, k =>
    if lookAlts.any (lookHolds ci cs) || (allowEnd && cs.isEmpty) then
      matchSeqGo ci fuel rest cs caps k
    else none

def matchSeq (ci : Bool) (items : List RItem) (cs : List Char) (caps : Caps)
    (k : Caps → List Char → Option (Caps × List Char)) :
    Option (Caps × List Char) :=
  matchSeqGo ci (itemsSize items + 1) items cs caps k

/-- Anchored match `/^…$/`: the items must consume the whole input. -/
def matchFull (ci : Bool) (items : List RItem) (cs : List Char) : Option Caps :=
  match matchSeq ci items cs []
      (fun caps rest => if rest.isEmpty then some (caps, rest) else none) with
  | some (caps, _) => some caps
  | none => none

/-- Match at the current position only; returns captures and the number of
characters consumed. -/
def matchHere (ci : Bool) (items : List RItem) (cs : List Char) :
    Option (Caps × Nat) :=
  match matchSeq ci items cs [] (fun caps rest => some (caps, rest)) with
  | some (caps, rest) => some (caps, cs.length - rest.length)
  | none => none

/-- All matches of a global regex (`String.prototype.matchAll`): scan left
to right, resume after each match, advance one character past an empty
match. -/
def scanAllGo (ci : Bool) (items : List RItem) : Nat → List Char → List Caps
  | 0, _ => []
  | fuel + 1, cs =>
    match matchHere ci items cs with
    | some (caps, consumed) =>
      if consumed = 0 then
        match cs with
        | [] => [caps]
        | _ :: t => caps :: scanAllGo ci items fuel t
      else caps :: scanAllGo ci items fuel (cs.drop consumed)
    | none =>
      match cs with
      | [] => []
      | _ :: t => scanAllGo ci items fuel t

def scanAll (ci : Bool) (items : List RItem) (cs : List Char) : List Caps :=
  scanAllGo ci items (cs.length + 1) cs

/-- First match of a non-global regex (`String.prototype.match`). -/
def firstMatchGo (ci : Bool) (items : List RItem) : Nat → List Char → Option Caps
  | 0, _ => none
  | fuel + 1, cs =>
    match matchHere ci items cs with
    | some (caps, _) => some caps
    | none =>
      match cs with
      | [] => none
      | _ :: t => firstMatchGo ci items fuel t

def firstMatch (ci : Bool) (items : List RItem) (cs : List Char) : Option Caps :=
  firstMatchGo ci items (cs.length + 1) cs

/-- Captured text of group `i` (`undefined` when the group is absent). -/
def capGet (caps : Caps) (i : Nat) : Option (List Char) :=
  (caps.find? (fun p => p.1 = i)).map (fun p => p.2)

/-! ## Ingredient-line normalizers

Two variants exist in the sources: the per-line parse inside
`RecipeExtractor.parseIngredients` (`js/recipeExtractor.js`), and
`OCRProcessor.parseIngredientLine` (`js/ocr.js`). -/

/-- `[\d\/.½⅓⅔¼¾⅛⅜⅝⅞]` (quantity characters, simple form). -/
def qtySimple (c : Char) : Bool :=
  c.isDigit || c = '/' || c = '.' || "½⅓⅔¼¾⅛⅜⅝⅞".data.contains c

/-- `[\d\/.½⅓⅔¼¾⅛⅜⅝⅞\-\s]` (quantity characters with ranges/spacing). -/
def qtyFull (c : Char) : Bool := qtySimple c || c = '-' || jsWs c

def notCh (c : Char) : Char → Bool := fun d => !(d = c)

def anyCh : Char → Bool := fun _ => true

/-- `/^([\d\/.½⅓⅔¼¾⅛⅜⅝⅞\-\s]+)?\s*(?:\(([\d\/.]+)[^)]*\))?\s*([a-zA-Z]+(?:\s+[a-zA-Z]+)?)\s+(.+)$/`
(the first pattern of `parseIngredients`). -/
def jsonLdIngP1 : List RItem :=
  [.grpOpt [.capGrp 1 [.cls qtyFull .plus]],
   .cls jsWs .star,
   .grpOpt [.lit "(".data,
            .capGrp 2 [.cls (fun c => c.isDigit || c = '/' || c = '.') .plus],
            .cls (notCh ')') .star, .lit ")".data],
   .cls jsWs .star,
   .capGrp 3 [.cls asciiAlpha .plus, .grpOpt [.cls jsWs .plus, .cls asciiAlpha .plus]],
   .cls jsWs .plus,
   .capGrp 4 [.cls jsDot .plus]]

/-- `/^([\d\/.½⅓⅔¼¾⅛⅜⅝⅞\-\s]+)?\s*(.+)$/` (the second, looser pattern). -/
def jsonLdIngP2 : List RItem :=
  [.grpOpt [.capGrp 1 [.cls qtyFull .plus]],
   .cls jsWs .star,
   .capGrp 2 [.cls jsDot .plus]]

/-- The per-line parse inside `RecipeExtractor.parseIngredients`: the
complex pattern's groups give amount/unit/item (with the parenthetical
alternate as amount fallback), the looser pattern gives amount/item, and
when neither matches the whole line becomes the item. -/
def jsonLdIngredientLine (text : List Char) : Ingredient :=
  match matchFull false jsonLdIngP1 text with
  | some caps =>
    { amount := String.mk (jsTrim ((capGet caps 1).getD ((capGet caps 2).getD []))),
      unit := String.mk ((capGet caps 3).getD []),
      item := String.mk ((capGet caps 4).getD text) }
  | none =>
    match matchFull false jsonLdIngP2 text with
    | some caps =>
      { amount := String.mk ((capGet caps 1).getD []), unit := "",
        item := String.mk ((capGet caps 2).getD text) }
    | none => { amount := "", unit := "", item := String.mk text }

/-- `/^([\d\/.½⅓⅔¼¾⅛⅜⅝⅞]+)\s*([a-zA-Z]+)?\s+(.+)$/`
(the first pattern of `OCRProcessor.parseIngredientLine`). -/
def ocrIngP1 : List RItem :=
  [.capGrp 1 [.cls qtySimple .plus],
   .cls jsWs .star,
   .grpOpt [.capGrp 2 [.cls asciiAlpha .plus]],
   .cls jsWs .plus,
   .capGrp 3 [.cls jsDot .plus]]

/-- `/^(.+)$/` (the fallback pattern of `parseIngredientLine`). -/
def ocrIngP2 : List RItem := [.capGrp 1 [.cls jsDot .plus]]

/-- `OCRProcessor.parseIngredientLine` (`js/ocr.js` lines 741-772): the
first pattern has more than three match entries and yields amount/unit/item;
the fallback match and the final fallback both return the whole line as the
item. -/
def parseIngredientLine (line : String) : Ingredient :=
  match matchFull false ocrIngP1 line.data with
  | some caps =>
    { amount := String.mk ((capGet caps 1).getD []),
      unit := String.mk ((capGet caps 2).getD []),
      item := String.mk ((capGet caps 3).getD line.data) }
  | none =>
    match matchFull false ocrIngP2 line.data with
    | some _ => { amount := "", unit := "", item := line }
    | none => { amount := "", unit := "", item := line }

/-! ## JSON values (`JSON.parse` results)

JavaScript number values are modelled as integers; fractional and exponent
parts are consumed syntactically and truncated (no claim in this
development depends on non-integral numbers). -/

inductive Json where
  | null
  | bool (b : Bool)
  | num (n : Int)
  | str (s : String)
  | arr (elems : List Json)
  | obj (fields : List (String × Json))

/-- Property access `j[key]`: `undefined` (`none`) unless `j` is an object
with the key; later duplicate keys from a JSON object literal overwrite
earlier ones, as in `JSON.parse`. -/
def Json.get (j : Json) (key : String) : Option Json :=
  match j with
  | .obj fs => fs.foldl (fun acc p => if p.1 = key then some p.2 else acc) none
  | _ => none

/-- JavaScript truthiness of a JSON value. -/
def Json.truthy : Json → Bool
  | .null => false
  | .bool b => b
  | .num n => !(n = 0)
  | .str s => !(s = "")
  | .arr _ => true
  | .obj _ => true

/-- `j[key]` filtered through an `if (j.key)` truthiness test. -/
def getTruthy (j : Json) (key : String) : Option Json :=
  match j.get key with
  | some v => if v.truthy then some v else none
  | none => none

/-! ## JSON text parser (`JSON.parse`)

A strict recursive-descent parser.  The fuel argument bounds the number of
parser steps; any sufficiently large bound gives the same result. -/

def skipWsJ (cs : List Char) : List Char :=
  cs.dropWhile (fun c => c = ' ' || c = '\t' || c = '\n' || c = '\r')

/-- Parse the body of a JSON string after the opening quote. -/
def parseJsonStrGo : Nat → List Char → List Char → Option (String × List Char)
  | 0, _, _ => none
  | _fuel + 1, acc, '"' :: rest => some (String.mk acc.reverse, rest)
  | fuel + 1, acc, '\\' :: e :: rest =>
    if e = '"' then parseJsonStrGo fuel ('"' :: acc) rest
    else if e = '\\' then parseJsonStrGo fuel ('\\' :: acc) rest
    else if e = '/' then parseJsonStrGo fuel ('/' :: acc) rest
    else if e = 'b' then parseJsonStrGo fuel ('\x08' :: acc) rest
    else if e = 'f' then parseJsonStrGo fuel ('\x0c' :: acc) rest
    else if e = 'n' then parseJsonStrGo fuel ('\n' :: acc) rest
    else if e = 'r' then parseJsonStrGo fuel ('\r' :: acc) rest
    else if e = 't' then parseJsonStrGo fuel ('\t' :: acc) rest
    else if e = 'u' then
      let hs := (rest.take 4)
      if hs.length = 4 && hs.all hexDigit then
        parseJsonStrGo fuel (Char.ofNat (hexToNat hs % 65536) :: acc) (rest.drop 4)
      else none
    else none
  | fuel + 1, acc, c :: rest =>
    if c.toNat < 32 then none else parseJsonStrGo fuel (c :: acc) rest
  | _, _, [] => none

/-- Parse a JSON number; fractional/exponent parts are consumed and the
value truncated to its integer part. -/
def parseJsonNum (cs : List Char) : Option (Json × List Char) :=
  let (neg, cs₁) := match cs with
    | '-' :: t => (true, t)
    | _ => (false, cs)
  let ds := cs₁.takeWhile Char.isDigit
  if ds.isEmpty then none
  else if 2 ≤ ds.length && ds.head? = some '0' then none
  else
    let rest₁ := cs₁.drop ds.length
    let rest₂ := match rest₁ with
      | '.' :: t =>
        let fs := t.takeWhile Char.isDigit
        if fs.isEmpty then rest₁ else t.drop fs.length
      | _ => rest₁
    let rest₃ := match rest₂ with
      | 'e' :: t | 'E' :: t =>
        let t' := match t with
          | '+' :: u => u
          | '-' :: u => u
          | _ => t
        let es := t'.takeWhile Char.isDigit
        if es.isEmpty then rest₂ else t'.drop es.length
      | _ => rest₂
    if (match rest₁ with
        | '.' :: t => (t.takeWhile Char.isDigit).isEmpty
        | _ => false) then none
    else
      let v : Int := Int.ofNat (digitsToNat ds)
      some (.num (if neg then -v else v), rest₃)

mutual

def parseJsonVal : Nat → List Char → Option (Json × List Char)
  | 0, _ => none
  | fuel + 1, cs =>
    match skipWsJ cs with
    | [] => none
    | 'n' :: t => if "ull".data.isPrefixOf t then some (.null, t.drop 3) else none
    | 't' :: t => if "rue".data.isPrefixOf t then some (.bool true, t.drop 3) else none
    | 'f' :: t => if "alse".data.isPrefixOf t then some (.bool false, t.drop 4) else none
    | '"' :: t =>
      match parseJsonStrGo (t.length + 1) [] t with
      | some (s, r) => some (.str s, r)
      | none => none
    | '[' :: t =>
      (match skipWsJ t with
       | ']' :: r => some (.arr [], r)
       | u => parseJsonArrGo fuel u [])
    | '{' :: t =>
      (match skipWsJ t with
       | '}' :: r => some (.obj [], r)
       | u => parseJsonObjGo fuel u [])
    | u => parseJsonNum u

def parseJsonArrGo : Nat → List Char → List Json → Option (Json × List Char)
  | 0, _, _ => none
  | fuel + 1, cs, acc =>
    match parseJsonVal fuel cs with
    | none => none
    | some (v, r) =>
      match skipWsJ r with
      | ',' :: r₂ => parseJsonArrGo fuel r₂ (v :: acc)
      | ']' :: r₂ => some (.arr (v :: acc).reverse, r₂)
      | _ => none

def parseJsonObjGo : Nat → List Char → List (String × Json) →
    Option (Json × List Char)
  | 0, _, _ => none
  | fuel + 1, cs, acc =>
    match skipWsJ cs with
    | '"' :: t =>
      match parseJsonStrGo (t.length + 1) [] t with
      | none => none
      | some (key, r) =>
        match skipWsJ r with
        | ':' :: r₂ =>
          match parseJsonVal fuel r₂ with
          | none => none
          | some (v, r₃) =>
            match skipWsJ r₃ with
            | ',' :: r₄ => parseJsonObjGo fuel r₄ ((key, v) :: acc)
            | '}' :: r₄ => some (.obj ((key, v) :: acc).reverse, r₄)
            | _ => none
        | _ => none
    | _ => none

end

def parseJson (cs : List Char) : Option Json :=
  match parseJsonVal (4 * cs.length + 16) cs with
  | some (j, rest) => if (skipWsJ rest).isEmpty then some j else none
  | none => none

/-! ## `RecipeExtractor.cleanJsonLd` and `extractFromJsonLd` -/

/-- `/<!--[\s\S]*?-->/g` with empty replacement: an HTML comment without a
closing `-->` is not a match and stays. -/
def removeCommentsGo : Nat → List Char → List Char
  | 0, cs => cs
  | _fuel + 1, [] => []
  | fuel + 1, c :: t =>
    if "<!--".data.isPrefixOf (c :: t) then
      match dropThroughCI "-->".data (t.length + 1) ((c :: t).drop 4) with
      | some rest => removeCommentsGo fuel rest
      | none => c :: removeCommentsGo fuel t
    else c :: removeCommentsGo fuel t

/-- `/,\s*([}\])])/g` replaced by the bracket: a comma, optional
whitespace, and a closing bracket collapse to the bracket. -/
def removeTrailingCommasGo : Nat → List Char → List Char
  | 0, cs => cs
  | _fuel + 1, [] => []
  | fuel + 1, c :: t =>
    if c = ',' then
      let ws := t.takeWhile jsWs
      match t.drop ws.length with
      | '}' :: rest => '}' :: removeTrailingCommasGo fuel rest
      | ']' :: rest => ']' :: removeTrailingCommasGo fuel rest
      | _ => c :: removeTrailingCommasGo fuel t
    else c :: removeTrailingCommasGo fuel t

/-- `RecipeExtractor.cleanJsonLd`: trim, strip HTML comments, strip CDATA
wrappers (anchored at the ends), unescape four HTML entities, and remove
trailing commas before closing brackets. -/
def cleanJsonLd (cs : List Char) : List Char :=
  let s₁ := jsTrim cs
  let s₂ := removeCommentsGo (s₁.length + 1) s₁
  let s₃ := if "<![CDATA[".data.isPrefixOf s₂ then s₂.drop 9 else s₂
  let s₄ := if "]]>".data.isSuffixOf s₃ then s₃.take (s₃.length - 3) else s₃
  let s₅ := replaceAllLit "&quot;".data ['"'] (s₄.length + 1) s₄
  let s₆ := replaceAllLit "&amp;".data ['&'] (s₅.length + 1) s₅
  let s₇ := replaceAllLit "&lt;".data ['<'] (s₆.length + 1) s₆
  let s₈ := replaceAllLit "&gt;".data ['>'] (s₇.length + 1) s₇
  removeTrailingCommasGo (s₈.length + 1) s₈

/-- `RecipeExtractor.isRecipeType`: the `@type` value (string or array of
strings) matches `"recipe"` case-insensitively. -/
def isRecipeType (t : Option Json) : Bool :=
  match t with
  | some (.str s) => String.mk (s.data.map Char.toLower) = "recipe"
  | some (.arr l) =>
    l.any fun v =>
      match v with
      | .str s => String.mk (s.data.map Char.toLower) = "recipe"
      | _ => false
  | _ => false

/-- `.find(item => isRecipeType(item['@type']))` over an array.  A `null`
element makes the property access throw; the enclosing try-catch then
skips the whole block, which the model folds into `none`. -/
def findRecipeInArr : List Json → Option Json
  | [] => none
  | .null :: _ => none
  | item :: rest =>
    if isRecipeType (item.get "@type") then some item
    else findRecipeInArr rest

/-- The `itemListElement` scan: items whose truthy `item` property is
Recipe-typed. -/
def findRecipeInItemList : List Json → Option Json
  | [] => none
  | .null :: _ => none
  | item :: rest =>
    match item.get "item" with
    | some sub =>
      if sub.truthy && isRecipeType (sub.get "@type") then some sub
      else findRecipeInItemList rest
    | none => findRecipeInItemList rest

/-- `RecipeExtractor.findRecipeInJsonLd`: the value itself, an array
element, a `@graph` element, or a nested `itemListElement` item.  A truthy
non-array `@graph` makes `.find` throw and the block is skipped. -/
def findRecipeInJsonLd (j : Json) : Option Json :=
  if isRecipeType (j.get "@type") then some j
  else
    match j with
    | .arr l => findRecipeInArr l
    | _ =>
      match j.get "@graph" with
      | some g =>
        if g.truthy then
          match g with
          | .arr l => findRecipeInArr l
          | _ => none
        else
          match j.get "itemListElement" with
          | some (.arr l) => findRecipeInItemList l
          | _ => none
      | none =>
        match j.get "itemListElement" with
        | some (.arr l) => findRecipeInItemList l
        | _ => none

/-! ## `parseInstructions`, `extractStepText`, `parseIngredients`
(`js/recipeExtractor.js`)

Exceptions thrown by these functions (property access on `null`, `.trim()`
on a non-string) abort the surrounding JSON-LD block; they are modelled as
`none`. -/

/-- `/\s+/g` replaced by a single space. -/
def collapseWsGo : Nat → List Char → List Char
  | 0, cs => cs
  | _fuel + 1, [] => []
  | fuel + 1, c :: t =>
    if jsWs c then ' ' :: collapseWsGo fuel (t.dropWhile jsWs)
    else c :: collapseWsGo fuel t

def collapseWs (cs : List Char) : List Char :=
  collapseWsGo (cs.length + 1) cs

/-- The tail of `extractStepText`: strip tags to spaces, collapse
whitespace, trim, and entity-decode a nonempty result. -/
def stepFinish (cs : List Char) : String :=
  let t := jsTrim (collapseWs (stripTags [' '] cs))
  if t.isEmpty then "" else decodeHtmlEntities (String.mk t)

/-- The branch chain of `extractStepText` after the `text` property:
`name` (with `@type === 'HowToStep'`), `description`, `instruction`,
`item?.text`. -/
def selectStepFieldAfterText (inst : Json) : Option Json :=
  match getTruthy inst "name", inst.get "@type" with
  | some v, some (.str t) =>
    if t = "HowToStep" then some v else selectStepFieldLate inst
  | _, _ => selectStepFieldLate inst
where
  selectStepFieldLate (inst : Json) : Option Json :=
    match getTruthy inst "description" with
    | some v => some v
    | none =>
      match getTruthy inst "instruction" with
      | some v => some v
      | none =>
        match inst.get "item" with
        | some sub => getTruthy sub "text"
        | none => none

/-- `RecipeExtractor.extractStepText`: pull the step text out of a string
or one of the known object fields; `none` models a thrown `TypeError`
(property access on `null`, `.trim()` on a non-string). -/
def extractStepText (inst : Json) : Option String :=
  match inst with
  | .str s => some (stepFinish (jsTrim s.data))
  | .null => none
  | _ =>
    match getTruthy inst "text" with
    | some (.str s) => some (stepFinish (jsTrim s.data))
    | some _ => none
    | none =>
      match selectStepFieldAfterText inst with
      | some (.str s) => some (stepFinish (jsTrim s.data))
      | some _ => none
      | none => some (stepFinish [])

/-- Collect the nonempty step texts of a list of instruction values. -/
def stepsOf : List Json → Option (List String)
  | [] => some []
  | item :: rest =>
    match extractStepText item with
    | none => none
    | some t =>
      match stepsOf rest with
      | none => none
      | some r => some (if t = "" then r else t :: r)

/-- A `HowToSection` sub-list: used only when present and an array. -/
def sectionPart (v : Option Json) : Option (List String) :=
  match v with
  | some (.arr l) => stepsOf l
  | _ => some []

/-- `/\n|(?:\d+\.\s)/`: a leading `N. `-style numbering token. -/
def numDotWs (cs : List Char) : Option Nat :=
  let ds := cs.takeWhile Char.isDigit
  if ds.isEmpty then none
  else
    match cs.drop ds.length with
    | '.' :: w :: _ => if jsWs w then some (ds.length + 2) else none
    | _ => none

/-- `String.prototype.split` on `/\n|(?:\d+\.\s)/`. -/
def splitInstrGo : Nat → List Char → List Char → List (List Char)
  | 0, acc, cs => [acc.reverse ++ cs]
  | _fuel + 1, acc, [] => [acc.reverse]
  | fuel + 1, acc, c :: t =>
    if c = '\n' then acc.reverse :: splitInstrGo fuel [] t
    else
      match numDotWs (c :: t) with
      | some k => acc.reverse :: splitInstrGo fuel [] ((c :: t).drop k)
      | none => splitInstrGo fuel (c :: acc) t

def splitInstr (cs : List Char) : List (List Char) :=
  splitInstrGo (cs.length + 1) [] cs

/-- The loop of `parseInstructions` over an instruction array, flattening
`HowToSection` groupings (`itemListElement` and `steps` sub-lists). -/
def instrLoop : List Json → Option (List String)
  | [] => some []
  | inst :: rest =>
    match inst with
    | .null => none
    | _ =>
      match inst.get "@type" with
      | some (.str "HowToSection") =>
        (match sectionPart (inst.get "itemListElement"),
               sectionPart (inst.get "steps"), instrLoop rest with
         | some a, some b, some r => some (a ++ b ++ r)
         | _, _, _ => none)
      | _ =>
        match extractStepText inst with
        | none => none
        | some t =>
          match instrLoop rest with
          | none => none
          | some r => some (if t = "" then r else t :: r)

/-- `RecipeExtractor.parseInstructions` (`js/recipeExtractor.js`): a single
string is split on newlines or `N. ` numbering, trimmed, entity-decoded and
filtered to fragments longer than 5 characters; a non-array non-string
yields no steps; an array is flattened step by step. -/
def parseInstructions (inst : Json) : Option (List String) :=
  match inst with
  | .str s =>
    some ((((splitInstr s.data).map
      (fun f => decodeHtmlEntities (String.mk (jsTrim f)))).filter
        (fun t => t.length > 5)))
  | .arr l => instrLoop l
  | _ => some []

/-- `RecipeExtractor.parseIngredients`: each raw line is trimmed,
entity-decoded and run through the per-line normalizer; a non-string
element makes `.trim()` throw. -/
def parseIngredientsJson : List Json → Option (List Ingredient)
  | [] => some []
  | .str s :: rest =>
    (parseIngredientsJson rest).map fun r =>
      jsonLdIngredientLine (decodeHtmlEntities (String.mk (jsTrim s.data))).data :: r
  | _ :: _ => none

/-! ## `parseJsonLdRecipe` and `extractFromJsonLd` -/

/-- The partial recipe produced by the structured-data extractor; `none`
fields are keys the source never sets. -/
structure RecipePatch where
  title : Option String := none
  imageUrl : Option String := none
  servings : Option Int := none
  prepTime : Option Nat := none
  cookTime : Option Nat := none
  ingredients : Option (List Ingredient) := none
  steps : Option (List String) := none

/-- First maximal digit run (`/(\d+)/`). -/
def firstDigitRun : List Char → Option (List Char)
  | [] => none
  | c :: t =>
    if c.isDigit then some ((c :: t).takeWhile Char.isDigit)
    else firstDigitRun t

/-- The `recipeYield` projection: take the first element of an array,
extract the first integer from a string, or use a number directly. -/
def servingsOf (rd : Json) : Option Int :=
  match getTruthy rd "recipeYield" with
  | some y =>
    let y₁ := match y with
      | .arr l => l.head?
      | v => some v
    match y₁ with
    | some (.str s) => (firstDigitRun s.data).map fun d => Int.ofNat (digitsToNat d)
    | some (.num n) => some n
    | _ => none
  | none => none

/-- The `image` projection: a plain string, an object with a truthy `url`
string, or the first element of an array.  Non-string values the source
would copy verbatim (and the validator would later reject as non-strings)
are modelled as absent. -/
def imageOf (rd : Json) : Option String :=
  match getTruthy rd "image" with
  | some (.str s) => some s
  | some v =>
    match getTruthy v "url" with
    | some (.str u) => some u
    | some _ => none
    | none =>
      match v with
      | .arr l =>
        match l.head? with
        | some (.str u) => some u
        | _ => none
      | _ => none
  | none => none

/-- `RecipeExtractor.parseJsonLdRecipe`: project a Recipe-typed
structured-data record into the partial recipe shape; `none` models an
exception thrown while projecting (caught by `extractFromJsonLd`).
A truthy non-string `name` (which the source copies verbatim and the
validator later rejects) is modelled as absent. -/
def parseJsonLdRecipe (rd : Json) : Option RecipePatch :=
  let title := match getTruthy rd "name" with
    | some (.str s) => some s
    | _ => none
  let prepTimeRes : Option (Option Nat) :=
    match getTruthy rd "prepTime" with
    | some (.str d) => some (durationToSet d)
    | some _ => none
    | none => some none
  let cookTimeRes : Option (Option Nat) :=
    match getTruthy rd "cookTime" with
    | some (.str d) => some (durationToSet d)
    | some _ => none
    | none => some none
  let ingredientsRes : Option (Option (List Ingredient)) :=
    match rd.get "recipeIngredient" with
    | some (.arr l) => (parseIngredientsJson l).map some
    | _ => some none
  let stepsRes : Option (Option (List String)) :=
    match getTruthy rd "recipeInstructions" with
    | some v => (parseInstructions v).map some
    | none => some none
  match prepTimeRes, cookTimeRes, ingredientsRes, stepsRes with
  | some prep, some cook, some ings, some steps =>
    some { title := title, imageUrl := imageOf rd, servings := servingsOf rd,
           prepTime := prep, cookTime := cook, ingredients := ings,
           steps := steps }
  | _, _, _, _ => none

/-- `/<script[^>]*type=["']application\/ld\+json["'][^>]*>([\s\S]*?)<\/script>/gi` -/
def scriptLdPat : List RItem :=
  [.lit "<script".data, .cls (notCh '>') .star, .lit "type=".data,
   .cls (fun c => c = '"' || c = '\'') .one, .lit "application/ld+json".data,
   .cls (fun c => c = '"' || c = '\'') .one, .cls (notCh '>') .star,
   .lit ">".data, .capGrp 1 [.cls anyCh .starL], .lit "</script>".data]

/-- The loop of `extractFromJsonLd` over the script blocks: the first block
that parses, contains a Recipe-typed record, and projects without throwing
wins; parse failures and exceptions skip to the next block. -/
def firstJsonLdPatch : List (List Char) → Option RecipePatch
  | [] => none
  | b :: rest =>
    match parseJson (cleanJsonLd b) with
    | none => firstJsonLdPatch rest
    | some j =>
      match findRecipeInJsonLd j with
      | none => firstJsonLdPatch rest
      | some rd =>
        match parseJsonLdRecipe rd with
        | some patch => some patch
        | none => firstJsonLdPatch rest

/-- `RecipeExtractor.extractFromJsonLd`. -/
def extractFromJsonLd (html : List Char) : Option RecipePatch :=
  firstJsonLdPatch
    ((scanAll true scriptLdPat html).map fun caps => (capGet caps 1).getD [])

/-! ## Pattern-based HTML extraction: ingredients
(`RecipeExtractor.extractIngredientsFromHtml` and helpers) -/

/-- `RecipeExtractor.cleanExtractedText`: strip tags to spaces, collapse
whitespace, trim, entity-decode. -/
def cleanExtractedText (cs : List Char) : String :=
  decodeHtmlEntities (String.mk (jsTrim (collapseWs (stripTags [' '] cs))))

/-- Leading call-to-action/ad words
(`/^(advertisement|sponsored|subscribe|sign up|log in|print|share|save|pin|email)/i`). -/
def ctaWords : List (List Char) :=
  ["advertisement".data, "sponsored".data, "subscribe".data, "sign up".data,
   "log in".data, "print".data, "share".data, "save".data, "pin".data,
   "email".data]

/-- Leading navigation phrases
(`/^(jump to|skip to|view|see|read more|click|tap)/i`). -/
def navWords : List (List Char) :=
  ["jump to".data, "skip to".data, "view".data, "see".data,
   "read more".data, "click".data, "tap".data]

/-- Leading nutrition-label phrases (`/^(nutrition|calories|serving size)/i`). -/
def nutritionWords : List (List Char) :=
  ["nutrition".data, "calories".data, "serving size".data]

/-- `/^\d+\s*(comments?|reviews?|ratings?)/i`: a count of
comments/reviews/ratings. -/
def countPhrase (cs : List Char) : Bool :=
  let ds := cs.takeWhile Char.isDigit
  if ds.isEmpty then false
  else
    let rest := (cs.drop ds.length).dropWhile jsWs
    ["comment".data, "review".data, "rating".data].any fun w => w.isPrefixOf rest

/-- `RecipeExtractor.isBoilerplateText`: a leading CTA/ad word, navigation
phrase, comment/review count or nutrition-label phrase (tested on the
lowercased text), or a length above 500. -/
def isBoilerplateText (s : String) : Bool :=
  let lower := s.data.map Char.toLower
  ((ctaWords.any fun w => w.isPrefixOf lower) ||
   (navWords.any fun w => w.isPrefixOf lower) ||
   countPhrase lower ||
   (nutritionWords.any fun w => w.isPrefixOf lower)) ||
  s.length > 500

/-- `/^([\d\/.½⅓⅔¼¾⅛⅜⅝⅞]+)?\s*([a-zA-Z]+)?\s*(.+)$/`
(`RecipeExtractor.parseIngredientText`). -/
def parseIngredientTextPat : List RItem :=
  [.grpOpt [.capGrp 1 [.cls qtySimple .plus]], .cls jsWs .star,
   .grpOpt [.capGrp 2 [.cls asciiAlpha .plus]], .cls jsWs .star,
   .capGrp 3 [.cls jsDot .plus]]

/-- `RecipeExtractor.parseIngredientText` (the pattern-extractor variant of
the normalizer). -/
def parseIngredientText (s : String) : Ingredient :=
  match matchFull false parseIngredientTextPat s.data with
  | some caps =>
    { amount := String.mk ((capGet caps 1).getD []),
      unit := String.mk ((capGet caps 2).getD []),
      item := String.mk ((capGet caps 3).getD s.data) }
  | none => { amount := "", unit := "", item := s }

/-- `<TAG[^>]*ATTR="[^"]*MARKER[^"]*"[^>]*>([\s\S]*?)CLOSE`. -/
def attrMarkerPat (openTag attrName marker closeTag : String) : List RItem :=
  [.lit openTag.data, .cls (notCh '>') .star, .lit (attrName ++ "=\"").data,
   .cls (notCh '"') .star, .lit marker.data, .cls (notCh '"') .star,
   .lit "\"".data, .cls (notCh '>') .star, .lit ">".data,
   .capGrp 1 [.cls anyCh .starL], .lit closeTag.data]

/-- `<TAG[^>]*ATTREQ[^>]*>([\s\S]*?)CLOSE`. -/
def attrLitCapPat (openTag attrEq closeTag : String) : List RItem :=
  [.lit openTag.data, .cls (notCh '>') .star, .lit attrEq.data,
   .cls (notCh '>') .star, .lit ">".data, .capGrp 1 [.cls anyCh .starL],
   .lit closeTag.data]

/-- `/<[^>]*data-ingredient[^>]*>([\s\S]*?)<\/[^>]+>/gi`. -/
def dataIngredientPat : List RItem :=
  [.lit "<".data, .cls (notCh '>') .star, .lit "data-ingredient".data,
   .cls (notCh '>') .star, .lit ">".data, .capGrp 1 [.cls anyCh .starL],
   .lit "</".data, .cls (notCh '>') .plus, .lit ">".data]

/-- The twelve ingredient pattern families of
`extractIngredientsFromHtml`, in source order. -/
def ingredientPatterns : List (List RItem) :=
  [attrMarkerPat "<li" "class" "ingredient" "</li>",
   attrLitCapPat "<li" "itemprop=\"recipeIngredient\"" "</li>",
   attrLitCapPat "<span" "data-ingredient-name=\"true\"" "</span>",
   attrMarkerPat "<li" "class" "mntl-structured-ingredients__list-item" "</li>",
   attrMarkerPat "<span" "class" "o-Ingredients__a-Ingredient" "</span>",
   attrMarkerPat "<div" "class" "ingredient" "</div>",
   attrMarkerPat "<li" "class" "xs-mb1" "</li>",
   attrMarkerPat "<li" "class" "pb-xxs" "</li>",
   attrMarkerPat "<span" "class" "ingredient" "</span>",
   attrMarkerPat "<p" "class" "ingredient" "</p>",
   dataIngredientPat,
   attrMarkerPat "<label" "class" "ingredient" "</label>"]

/-- The group-1 captures of all matches of a global pattern. -/
def capturesOf (pat : List RItem) (html : List Char) : List (List Char) :=
  (scanAll true pat html).map fun caps => (capGet caps 1).getD []

/-- The acceptance test of the ingredient pattern cascade:
`if (text && text.length > 2 && !this.isBoilerplateText(text))`. -/
def acceptIngredient (t : String) : Bool :=
  !(t = "") && t.length > 2 && !(isBoilerplateText t)

/-- Push the accepted, parsed fragments of one pattern family. -/
def pushAccepted (acc : List Ingredient) (texts : List (List Char)) :
    List Ingredient :=
  texts.foldl (fun a raw =>
    let text := cleanExtractedText raw
    if acceptIngredient text then a ++ [parseIngredientText text] else a) acc

/-- The main loop of `extractIngredientsFromHtml`: try each pattern family
in order and stop once more than 2 ingredients have accumulated
(`if (recipe.ingredients.length > 2) break;`). -/
def ingredientFamilyLoop : List (List RItem) → List Char → List Ingredient →
    List Ingredient
  | [], _, acc => acc
  | pat :: rest, html, acc =>
    let acc' := pushAccepted acc (capturesOf pat html)
    if 2 < acc'.length then acc' else ingredientFamilyLoop rest html acc'

/-- `/<li[^>]*>([\s\S]*?)<\/li>/gi`. -/
def liPat : List RItem :=
  [.lit "<li".data, .cls (notCh '>') .star, .lit ">".data,
   .capGrp 1 [.cls anyCh .starL], .lit "</li>".data]

/-- `/<p[^>]*>([\s\S]*?)<\/p>/gi`. -/
def pPat : List RItem :=
  [.lit "<p".data, .cls (notCh '>') .star, .lit ">".data,
   .capGrp 1 [.cls anyCh .starL], .lit "</p>".data]

/-- The list-container fallback patterns of `extractIngredientsFromLists`. -/
def ingredientListPats : List (List RItem) :=
  [attrMarkerPat "<ul" "class" "ingredient" "</ul>",
   attrMarkerPat "<ul" "id" "ingredient" "</ul>",
   [.lit "<div".data, .cls (notCh '>') .star, .lit "class=\"".data,
    .cls (notCh '"') .star, .lit "ingredient".data, .cls (notCh '"') .star,
    .lit "\"".data, .cls (notCh '>') .star, .lit ">".data, .cls anyCh .starL,
    .lit "<ul".data, .cls (notCh '>') .star, .lit ">".data,
    .capGrp 1 [.cls anyCh .starL], .lit "</ul>".data]]

/-- `extractIngredientsFromLists` flattened over its matched list bodies:
push the accepted `<li>` texts of each body, returning early once more
than 2 ingredients have accumulated. -/
def ingredientListsFold (acc : List Ingredient) :
    List (List Char) → List Ingredient
  | [] => acc
  | sec :: rest =>
    let acc' := pushAccepted acc (capturesOf liPat sec)
    if 2 < acc'.length then acc' else ingredientListsFold acc' rest

def extractIngredientsFromLists (html : List Char) (acc : List Ingredient) :
    List Ingredient :=
  ingredientListsFold acc
    (ingredientListPats.flatMap fun pat => capturesOf pat html)

/-- `('2' ≤ c && c ≤ '4')` for `h[2-4]`. -/
def h24 (c : Char) : Bool := '2' ≤ c && c ≤ '4'

/-- The blog-style header patterns of `extractIngredientsFromBlogFormat`
(`gi`, lookahead-terminated sections). -/
def blogIngredientHeaderPats : List (List RItem) :=
  [[.lit "<h".data, .cls h24 .one, .cls (notCh '>') .star, .lit ">".data,
    .cls (notCh '<') .star, .lit "ingredients".data, .cls (notCh '<') .star,
    .lit "</h".data, .cls h24 .one, .lit ">".data, .cls jsWs .star,
    .capGrp 1 [.cls anyCh .starL],
    .look [("<h".data, some h24), ("</article".data, none),
           ("</main".data, none)] true],
   [.lit "<strong>".data, .cls (notCh '<') .star, .lit "ingredients".data,
    .cls (notCh '<') .star, .lit "</strong>".data, .cls jsWs .star,
    .capGrp 1 [.cls anyCh .starL],
    .look [("<strong>".data, none), ("<h".data, some h24)] true],
   [.lit "<b>".data, .cls (notCh '<') .star, .lit "ingredients".data,
    .cls (notCh '<') .star, .lit "</b>".data, .cls jsWs .star,
    .capGrp 1 [.cls anyCh .starL],
    .look [("<b>".data, none), ("<h".data, some h24)] true]]

/-- Occurrence test for a contiguous character sequence. -/
def containsSeq (needle : List Char) : List Char → Bool
  | [] => needle.isEmpty
  | c :: t => needle.isPrefixOf (c :: t) || containsSeq needle t

/-- `/\d|cup|tbsp|tsp|oz|lb|gram|ml|pinch|dash/i`: the paragraph looks like
an ingredient. -/
def hasUnitHint (s : String) : Bool :=
  let lower := s.data.map Char.toLower
  s.data.any Char.isDigit ||
  (["cup".data, "tbsp".data, "tsp".data, "oz".data, "lb".data, "gram".data,
    "ml".data, "pinch".data, "dash".data].any fun w => containsSeq w lower)

/-- The paragraph branch of the blog fallback: length in `(3, 200)` and a
digit or unit word, with no boilerplate test. -/
def pushBlogParagraphs (acc : List Ingredient) (texts : List (List Char)) :
    List Ingredient :=
  texts.foldl (fun a raw =>
    let text := cleanExtractedText raw
    if !(text = "") && text.length > 3 && text.length < 200 && hasUnitHint text
    then a ++ [parseIngredientText text] else a) acc

/-- `extractIngredientsFromBlogFormat` flattened over its matched header
sections: `<li>` items when present, otherwise unit-bearing paragraphs;
early return once more than 2 ingredients have accumulated. -/
def blogIngredientsFold (acc : List Ingredient) :
    List (List Char) → List Ingredient
  | [] => acc
  | sec :: rest =>
    let lis := capturesOf liPat sec
    let acc' :=
      if lis.isEmpty then pushBlogParagraphs acc (capturesOf pPat sec)
      else pushAccepted acc lis
    if 2 < acc'.length then acc' else blogIngredientsFold acc' rest

def extractIngredientsFromBlogFormat (html : List Char)
    (acc : List Ingredient) : List Ingredient :=
  blogIngredientsFold acc
    (blogIngredientHeaderPats.flatMap fun pat => capturesOf pat html)

/-- `RecipeExtractor.extractIngredientsFromHtml`: the pattern-family
cascade, then the list-container fallback, then the blog-style fallback,
each later stage only when the ingredient list is still empty. -/
def extractIngredientsFromHtml (html : List Char) (ings : List Ingredient) :
    List Ingredient :=
  let afterFams := ingredientFamilyLoop ingredientPatterns html ings
  let afterLists :=
    if afterFams.isEmpty then extractIngredientsFromLists html afterFams
    else afterFams
  if afterLists.isEmpty then extractIngredientsFromBlogFormat html afterLists
  else afterLists

/-! ## Pattern-based HTML extraction: steps
(`RecipeExtractor.extractStepsFromHtml` and helpers) -/

/-- The sixteen step pattern families of `extractStepsFromHtml`, in source
order. -/
def stepPatterns : List (List RItem) :=
  [attrLitCapPat "<li" "data-testid=\"instruction-text\"" "</li>",
   attrMarkerPat "<p" "class" "mntl-sc-block-html" "</p>",
   attrMarkerPat "<div" "class" "recipe-instruction" "</div>",
   attrMarkerPat "<li" "class" "o-Method__m-Step" "</li>",
   attrMarkerPat "<p" "class" "instruction" "</p>",
   attrMarkerPat "<div" "class" "step-instruction" "</div>",
   attrMarkerPat "<li" "class" "recipe-steps" "</li>",
   attrMarkerPat "<li" "class" "method-steps" "</li>",
   attrMarkerPat "<li" "class" "prep-steps" "</li>",
   attrMarkerPat "<li" "class" "instruction" "</li>",
   attrMarkerPat "<li" "class" "direction" "</li>",
   attrMarkerPat "<li" "class" "step" "</li>",
   attrLitCapPat "<li" "itemprop=\"recipeInstructions\"" "</li>",
   attrMarkerPat "<div" "class" "direction" "</div>",
   attrMarkerPat "<div" "class" "step" "</div>",
   [.lit "<".data, .cls (notCh '>') .star, .lit "data-instruction".data,
    .cls (notCh '>') .star, .lit ">".data, .capGrp 1 [.cls anyCh .starL],
    .lit "</".data, .cls (notCh '>') .plus, .lit ">".data]]

/-- Push the cleaned fragments longer than `minLen` that are not
boilerplate. -/
def pushSteps (minLen : Nat) (acc : List String) (texts : List (List Char)) :
    List String :=
  texts.foldl (fun a raw =>
    let text := cleanExtractedText raw
    if !(text = "") && text.length > minLen && !(isBoilerplateText text)
    then a ++ [text] else a) acc

/-- The main loop of `extractStepsFromHtml`: acceptance threshold >15
characters, stop once more than 1 step has accumulated. -/
def stepFamilyLoop : List (List RItem) → List Char → List String → List String
  | [], _, acc => acc
  | pat :: rest, html, acc =>
    let acc' := pushSteps 15 acc (capturesOf pat html)
    if 1 < acc'.length then acc' else stepFamilyLoop rest html acc'

/-- The list-container fallback patterns of `extractStepsFromLists`. -/
def stepListPats : List (List RItem) :=
  [[.lit "<ol".data, .cls (notCh '>') .star, .lit "class=\"".data,
    .cls (notCh '"') .star,
    .alts ["instruction".data, "direction".data, "method".data, "step".data,
           "recipe".data],
    .cls (notCh '"') .star, .lit "\"".data, .cls (notCh '>') .star,
    .lit ">".data, .capGrp 1 [.cls anyCh .starL], .lit "</ol>".data],
   [.lit "<ol".data, .cls (notCh '>') .star, .lit "id=\"".data,
    .cls (notCh '"') .star,
    .alts ["instruction".data, "direction".data, "method".data, "step".data],
    .cls (notCh '"') .star, .lit "\"".data, .cls (notCh '>') .star,
    .lit ">".data, .capGrp 1 [.cls anyCh .starL], .lit "</ol>".data],
   [.lit "<ul".data, .cls (notCh '>') .star, .lit "class=\"".data,
    .cls (notCh '"') .star,
    .alts ["instruction".data, "direction".data, "method".data, "step".data],
    .cls (notCh '"') .star, .lit "\"".data, .cls (notCh '>') .star,
    .lit ">".data, .capGrp 1 [.cls anyCh .starL], .lit "</ul>".data],
   [.lit "<div".data, .cls (notCh '>') .star, .lit "class=\"".data,
    .cls (notCh '"') .star,
    .alts ["instruction".data, "direction".data, "method".data],
    .cls (notCh '"') .star, .lit "\"".data, .cls (notCh '>') .star,
    .lit ">".data, .cls anyCh .starL, .lit "<ol".data,
    .cls (notCh '>') .star, .lit ">".data, .capGrp 1 [.cls anyCh .starL],
    .lit "</ol>".data]]

/-- `/<p[^>]*>\s*(?:Step\s*)?\d+[.:]\s*([\s\S]*?)<\/p>/gi`
(the last-resort numbered-paragraph pattern). -/
def numberedStepPat : List RItem :=
  [.lit "<p".data, .cls (notCh '>') .star, .lit ">".data, .cls jsWs .star,
   .grpOpt [.lit "step".data, .cls jsWs .star], .cls Char.isDigit .plus,
   .cls (fun c => c = '.' || c = ':') .one, .cls jsWs .star,
   .capGrp 1 [.cls anyCh .starL], .lit "</p>".data]

/-- `extractStepsFromLists` flattened over its matched list bodies: push
the accepted `<li>` texts of each body, early return once more than 1 step
accumulated. -/
def stepListsFold (acc : List String) : List (List Char) → List String
  | [] => acc
  | sec :: rest =>
    let acc' := pushSteps 15 acc (capturesOf liPat sec)
    if 1 < acc'.length then acc' else stepListsFold acc' rest

def extractStepsFromLists (html : List Char) (acc : List String) :
    List String :=
  let a := stepListsFold acc (stepListPats.flatMap fun pat => capturesOf pat html)
  if a.isEmpty then pushSteps 15 a (capturesOf numberedStepPat html) else a

/-- The blog-style header patterns of `extractStepsFromBlogFormat`. -/
def blogStepHeaderPats : List (List RItem) :=
  [[.lit "<h".data, .cls h24 .one, .cls (notCh '>') .star, .lit ">".data,
    .cls (notCh '<') .star,
    .alts ["instructions".data, "instruction".data, "directions".data,
           "direction".data, "method".data, "steps".data, "step".data,
           "how to make".data],
    .cls (notCh '<') .star, .lit "</h".data, .cls h24 .one, .lit ">".data,
    .cls jsWs .star, .capGrp 1 [.cls anyCh .starL],
    .look [("<h".data, some h24), ("</article".data, none),
           ("</main".data, none)] true],
   [.lit "<strong>".data, .cls (notCh '<') .star,
    .alts ["instructions".data, "instruction".data, "directions".data,
           "direction".data, "method".data],
    .cls (notCh '<') .star, .lit "</strong>".data, .cls jsWs .star,
    .capGrp 1 [.cls anyCh .starL],
    .look [("<strong>".data, none), ("<h".data, some h24)] true]]

/-- `/<ol[^>]*>([\s\S]*?)<\/ol>/i` (first match only). -/
def olPat : List RItem :=
  [.lit "<ol".data, .cls (notCh '>') .star, .lit ">".data,
   .capGrp 1 [.cls anyCh .starL], .lit "</ol>".data]

/-- `extractStepsFromBlogFormat` flattened over its matched header
sections: the first `<ol>`'s items when present, otherwise paragraphs with
a >30-character threshold; early return once more than 1 step
accumulated. -/
def blogStepsFold (acc : List String) : List (List Char) → List String
  | [] => acc
  | sec :: rest =>
    let acc' :=
      match firstMatch true olPat sec with
      | some caps => pushSteps 15 acc (capturesOf liPat ((capGet caps 1).getD []))
      | none => pushSteps 30 acc (capturesOf pPat sec)
    if 1 < acc'.length then acc' else blogStepsFold acc' rest

def extractStepsFromBlogFormat (html : List Char) (acc : List String) :
    List String :=
  blogStepsFold acc (blogStepHeaderPats.flatMap fun pat => capturesOf pat html)

/-- `RecipeExtractor.extractStepsFromHtml`: the pattern-family cascade,
then the list fallback, then the blog-style fallback, each later stage
only when the step list is still empty. -/
def extractStepsFromHtml (html : List Char) (steps : List String) :
    List String :=
  let a := stepFamilyLoop stepPatterns html steps
  let b := if a.isEmpty then extractStepsFromLists html a else a
  if b.isEmpty then extractStepsFromBlogFormat html b else b

/-! ## Pattern-based HTML extraction: title and image -/

/-- The four title patterns of `extractTitleFromHtml`, in source order. -/
def titlePatterns : List (List RItem) :=
  [[.lit "<h1".data, .cls (notCh '>') .star, .lit "class=\"".data,
    .cls (notCh '"') .star, .lit "recipe".data, .cls (notCh '"') .star,
    .lit "\"".data, .cls (notCh '>') .star, .lit ">".data,
    .capGrp 1 [.cls (notCh '<') .plus], .lit "</h1>".data],
   [.lit "<h1".data, .cls (notCh '>') .star, .lit ">".data,
    .capGrp 1 [.cls (notCh '<') .plus], .lit "</h1>".data],
   [.lit "<h2".data, .cls (notCh '>') .star, .lit "class=\"".data,
    .cls (notCh '"') .star, .lit "recipe".data, .cls (notCh '"') .star,
    .lit "\"".data, .cls (notCh '>') .star, .lit ">".data,
    .capGrp 1 [.cls (notCh '<') .plus], .lit "</h2>".data],
   [.lit "<title>".data, .capGrp 1 [.cls (notCh '<') .plus],
    .lit "</title>".data]]

/-- `.replace(/\s*\|.*$/, '')`: strip a `| site name` suffix.  The `.*$`
part must reach the end of the string through non-newline characters. -/
def stripTitleBarGo : Nat → List Char → List Char
  | 0, cs => cs
  | _fuel + 1, [] => []
  | fuel + 1, c :: t =>
    let ws := (c :: t).takeWhile jsWs
    match (c :: t).drop ws.length with
    | '|' :: rest =>
      if rest.all jsDot then [] else c :: stripTitleBarGo fuel t
    | _ => c :: stripTitleBarGo fuel t

/-- `.replace(/Recipe\s*[-–]\s*/i, '')`: strip the first `Recipe - `
prefix occurrence. -/
def stripRecipeDashGo : Nat → List Char → List Char
  | 0, cs => cs
  | _fuel + 1, [] => []
  | fuel + 1, c :: t =>
    if isPrefixCI "recipe".data (c :: t) then
      let after := ((c :: t).drop 6).dropWhile jsWs
      match after with
      | d :: rest =>
        if d = '-' || d = '–' then rest.dropWhile jsWs
        else c :: stripRecipeDashGo fuel t
      | [] => c :: stripRecipeDashGo fuel t
    else c :: stripRecipeDashGo fuel t

/-- The title cleanup applied to a matched title fragment. -/
def cleanTitle (g : List Char) : String :=
  let d := decodeHtmlEntities (String.mk (jsTrim g))
  String.mk (stripRecipeDashGo (d.data.length + 1)
    (stripTitleBarGo (d.data.length + 1) d.data))

/-- `RecipeExtractor.extractTitleFromHtml`: first pattern whose match has
a nonempty trimmed capture wins. -/
def extractTitle : List (List RItem) → List Char → Option String
  | [], _ => none
  | pat :: rest, html =>
    match firstMatch true pat html with
    | some caps =>
      let g := (capGet caps 1).getD []
      if (jsTrim g).isEmpty then extractTitle rest html
      else some (cleanTitle g)
    | none => extractTitle rest html

/-- The nine image patterns of `extractImageFromHtml`, in source order. -/
def imagePatterns : List (List RItem) :=
  [[.lit "<meta".data, .cls (notCh '>') .star,
    .lit "property=\"og:image\"".data, .cls (notCh '>') .star,
    .lit "content=\"".data, .capGrp 1 [.cls (notCh '"') .plus], .lit "\"".data],
   [.lit "<meta".data, .cls (notCh '>') .star, .lit "content=\"".data,
    .capGrp 1 [.cls (notCh '"') .plus], .lit "\"".data, .cls (notCh '>') .star,
    .lit "property=\"og:image\"".data],
   [.lit "<meta".data, .cls (notCh '>') .star,
    .lit "name=\"twitter:image\"".data, .cls (notCh '>') .star,
    .lit "content=\"".data, .capGrp 1 [.cls (notCh '"') .plus], .lit "\"".data],
   [.lit "<img".data, .cls (notCh '>') .star, .lit "itemprop=\"image\"".data,
    .cls (notCh '>') .star, .lit "src=\"".data,
    .capGrp 1 [.cls (notCh '"') .plus], .lit "\"".data],
   [.lit "<img".data, .cls (notCh '>') .star, .lit "class=\"".data,
    .cls (notCh '"') .star, .lit "recipe".data, .cls (notCh '"') .star,
    .lit "\"".data, .cls (notCh '>') .star, .lit "src=\"".data,
    .capGrp 1 [.cls (notCh '"') .plus], .lit "\"".data],
   [.lit "<img".data, .cls (notCh '>') .star, .lit "class=\"".data,
    .cls (notCh '"') .star, .lit "hero".data, .cls (notCh '"') .star,
    .lit "\"".data, .cls (notCh '>') .star, .lit "src=\"".data,
    .capGrp 1 [.cls (notCh '"') .plus], .lit "\"".data],
   [.lit "<img".data, .cls (notCh '>') .star, .lit "class=\"".data,
    .cls (notCh '"') .star, .lit "featured".data, .cls (notCh '"') .star,
    .lit "\"".data, .cls (notCh '>') .star, .lit "src=\"".data,
    .capGrp 1 [.cls (notCh '"') .plus], .lit "\"".data],
   [.lit "<img".data, .cls (notCh '>') .star, .lit "data-src=\"".data,
    .capGrp 1 [.cls (notCh '"') .plus], .lit "\"".data, .cls (notCh '>') .star,
    .lit "class=\"".data, .cls (notCh '"') .star, .lit "recipe".data],
   [.lit "<source".data, .cls (notCh '>') .star, .lit "srcset=\"".data,
    .capGrp 1 [.cls (notCh '"') .plus], .lit "\"".data, .cls (notCh '>') .star,
    .lit "type=\"image".data]]

/-- The `srcset` fixup: when the URL contains a space, take the text
before the first space, then before the first comma, trimmed. -/
def fixSrcset (u : List Char) : List Char :=
  if u.contains ' ' then
    jsTrim ((u.takeWhile fun c => !(c = ' ')).takeWhile fun c => !(c = ','))
  else u

/-- `RecipeExtractor.extractImageFromHtml`: first matching pattern wins. -/
def extractImage : List (List RItem) → List Char → Option String
  | [], _ => none
  | pat :: rest, html =>
    match firstMatch true pat html with
    | some caps =>
      match capGet caps 1 with
      | some g => some (String.mk (fixSrcset g))
      | none => extractImage rest html
    | none => extractImage rest html

/-! ## Microdata extraction (`RecipeExtractor.extractFromMicrodata`) -/

def quoteCh (c : Char) : Bool := c = '"' || c = '\''

def mdNamePat1 : List RItem :=
  [.lit "<".data, .cls (notCh '>') .star, .lit "itemprop=".data,
   .cls quoteCh .one, .lit "name".data, .cls quoteCh .one,
   .cls (notCh '>') .star, .lit ">".data, .capGrp 1 [.cls (notCh '<') .plus],
   .lit "<".data]

def mdNamePat2 : List RItem :=
  [.lit "<".data, .cls (notCh '>') .star, .lit "itemprop=".data,
   .cls quoteCh .one, .lit "name".data, .cls quoteCh .one,
   .cls (notCh '>') .star, .lit "content=".data, .cls quoteCh .one,
   .capGrp 1 [.cls (fun c => !(c = '"' || c = '\'')) .plus], .cls quoteCh .one]

def mdIngPat1 : List RItem :=
  [.lit "<".data, .cls (notCh '>') .star, .lit "itemprop=".data,
   .cls quoteCh .one, .alts ["recipeIngredient".data, "ingredients".data],
   .cls quoteCh .one, .cls (notCh '>') .star, .lit ">".data,
   .capGrp 1 [.cls (notCh '<') .star], .lit "<".data]

def mdIngPat2 : List RItem :=
  [.lit "<".data, .cls (notCh '>') .star, .lit "itemprop=".data,
   .cls quoteCh .one, .alts ["recipeIngredient".data, "ingredients".data],
   .cls quoteCh .one, .cls (notCh '>') .star, .lit "content=".data,
   .cls quoteCh .one,
   .capGrp 1 [.cls (fun c => !(c = '"' || c = '\'')) .plus], .cls quoteCh .one]

def mdInstPat : List RItem :=
  [.lit "<".data, .cls (notCh '>') .star, .lit "itemprop=".data,
   .cls quoteCh .one, .lit "recipeInstructions".data, .cls quoteCh .one,
   .cls (notCh '>') .star, .lit ">".data, .capGrp 1 [.cls anyCh .starL],
   .lit "</".data, .cls (notCh '>') .plus, .lit ">".data]

def mdImgPat1 : List RItem :=
  [.lit "<img".data, .cls (notCh '>') .star, .lit "itemprop=".data,
   .cls quoteCh .one, .lit "image".data, .cls quoteCh .one,
   .cls (notCh '>') .star, .lit "src=".data, .cls quoteCh .one,
   .capGrp 1 [.cls (fun c => !(c = '"' || c = '\'')) .plus], .cls quoteCh .one]

def mdImgPat2 : List RItem :=
  [.lit "<".data, .cls (notCh '>') .star, .lit "itemprop=".data,
   .cls quoteCh .one, .lit "image".data, .cls quoteCh .one,
   .cls (notCh '>') .star, .lit "content=".data, .cls quoteCh .one,
   .capGrp 1 [.cls (fun c => !(c = '"' || c = '\'')) .plus], .cls quoteCh .one]

/-- The partial result of `extractFromMicrodata`. -/
structure MicroPatch where
  title : Option String := none
  ingredients : Option (List Ingredient) := none
  steps : Option (List String) := none
  imageUrl : Option String := none

/-- `RecipeExtractor.extractFromMicrodata`: itemprop-based extraction,
returned only when it found ingredients or steps. -/
def extractFromMicrodata (html : List Char) : Option MicroPatch :=
  let title :=
    match firstMatch true mdNamePat1 html with
    | some caps =>
      some (decodeHtmlEntities (String.mk (jsTrim ((capGet caps 1).getD []))))
    | none =>
      match firstMatch true mdNamePat2 html with
      | some caps =>
        some (decodeHtmlEntities (String.mk (jsTrim ((capGet caps 1).getD []))))
      | none => none
  let ingMatches := capturesOf mdIngPat1 html ++ capturesOf mdIngPat2 html
  let ingredients :=
    if ingMatches.isEmpty then none
    else some ((((ingMatches.map fun g =>
      decodeHtmlEntities (String.mk (jsTrim g))).filter
        (fun t => t.length > 2)).map parseIngredientText))
  let instMatches := capturesOf mdInstPat html
  let steps :=
    if instMatches.isEmpty then none
    else some (((instMatches.map fun g =>
      decodeHtmlEntities (String.mk (jsTrim (stripTags [' '] g)))).filter
        (fun t => t.length > 5)))
  let imageUrl :=
    match firstMatch true mdImgPat1 html with
    | some caps => some (String.mk ((capGet caps 1).getD []))
    | none =>
      match firstMatch true mdImgPat2 html with
      | some caps => some (String.mk ((capGet caps 1).getD []))
      | none => none
  if (match ingredients with
      | some l => 0 < l.length
      | none => false) ||
     (match steps with
      | some l => 0 < l.length
      | none => false) then
    some { title := title, ingredients := ingredients, steps := steps,
           imageUrl := imageUrl }
  else none

/-! ## `RecipeExtractor.extractRecipeFromHtml` -/

/-- A recipe as assembled by `extractRecipeFromHtml`. -/
structure Recipe where
  url : String
  title : String
  ingredients : List Ingredient
  servings : Int
  prepTime : Int
  cookTime : Int
  steps : List String
  imageUrl : Option String
deriving DecidableEq

/-- Modelled from the spec: `new URL(sourceUrl).hostname` with the
`catch` fallback `'website'` for unparseable URLs. -/
def hostnameOf (u : String) : String :=
  match dropThroughCI "://".data (u.data.length + 1) u.data with
  | some rest =>
    let host := rest.takeWhile fun c =>
      !(c = '/' || c = ':' || c = '?' || c = '#')
    if host.isEmpty then "website" else String.mk host
  | none => "website"

/-- `Object.assign(recipe, jsonLdRecipe)`: fields the patch carries
overwrite the candidate's. -/
def applyPatch (r : Recipe) (p : RecipePatch) : Recipe :=
  { r with
    title := p.title.getD r.title,
    imageUrl := match p.imageUrl with
      | some u => some u
      | none => r.imageUrl,
    servings := p.servings.getD r.servings,
    prepTime := (p.prepTime.map Int.ofNat).getD r.prepTime,
    cookTime := (p.cookTime.map Int.ofNat).getD r.cookTime,
    ingredients := p.ingredients.getD r.ingredients,
    steps := p.steps.getD r.steps }

/-- `RecipeExtractor.extractFromHtmlPatterns`: fill title, ingredients,
steps and image from the HTML pattern cascades. -/
def extractFromHtmlPatterns (html : List Char) (r : Recipe) : Recipe :=
  let rT := match extractTitle titlePatterns html with
    | some t => { r with title := t }
    | none => r
  let rI := { rT with ingredients := extractIngredientsFromHtml html rT.ingredients }
  let rS := { rI with steps := extractStepsFromHtml html rI.steps }
  match extractImage imagePatterns html with
  | some u => { rS with imageUrl := some u }
  | none => rS

/-- JavaScript falsiness of the `imageUrl` field (`null` or `''`). -/
def imageFalsy : Option String → Bool
  | none => true
  | some s => s = ""

/-- The minimal-content heuristic of `extractRecipeFromHtml`: very little
text after tag-stripping signals a JavaScript-rendered page. -/
def isMinimalContent (html : String) : Bool :=
  (jsTrim (collapseWs (stripTags [' '] html.data))).length < 1000

/-- The ingredient placeholder fill of `extractRecipeFromHtml`. -/
def ingredientFill (isMinimal : Bool) (r : Recipe) : Recipe :=
  if r.ingredients.length = 0 then
    { r with ingredients :=
      [{ amount := "", unit := "",
         item := if isMinimal then
           "Could not extract ingredients - this site may require JavaScript to load content. Try using the photo feature instead."
         else "Could not extract ingredients - please check the original recipe" }] }
  else r

/-- The step placeholder fill of `extractRecipeFromHtml`. -/
def stepFill (isMinimal : Bool) (r : Recipe) : Recipe :=
  if r.steps.length = 0 then
    { r with steps :=
      [if isMinimal then
         "Could not extract instructions - this site may require JavaScript to load content. Try using the photo feature instead."
       else "Could not extract instructions - please check the original recipe"] }
  else r

/-- The last stage of `extractRecipeFromHtml`: the HTML pattern cascades,
the JavaScript-rendered-page heuristic, and the placeholder fills that
guarantee nonempty ingredient and step lists. -/
def patternStage (html : String) (r : Recipe) : Recipe :=
  stepFill (isMinimalContent html)
    (ingredientFill (isMinimalContent html) (extractFromHtmlPatterns html.data r))

/-- The field-by-field merge of a microdata result into the candidate
(each field filled only when still empty/default). -/
def microMerge (md : MicroPatch) (r : Recipe) : Recipe :=
  let rA := match md.title with
    | some t =>
      if !(t = "") && ("Recipe from".data.isPrefixOf r.title.data) then
        { r with title := t }
      else r
    | none => r
  let rB := match md.ingredients with
    | some l =>
      if 0 < l.length && rA.ingredients.length = 0 then
        { rA with ingredients := l }
      else rA
    | none => rA
  let rC := match md.steps with
    | some l =>
      if 0 < l.length && rB.steps.length = 0 then { rB with steps := l }
      else rB
    | none => rB
  match md.imageUrl with
  | some u =>
    if !(u = "") && imageFalsy rC.imageUrl then { rC with imageUrl := some u }
    else rC
  | none => rC

/-- The microdata stage of `extractRecipeFromHtml`: merge the microdata
result into still-empty fields and return early when both lists are
filled, otherwise fall through to the pattern stage. -/
def microdataStage (html : String) (r : Recipe) : Recipe :=
  match extractFromMicrodata html.data with
  | some md =>
    let rD := microMerge md r
    if 0 < rD.ingredients.length && 0 < rD.steps.length then rD
    else patternStage html rD
  | none => patternStage html r

/-- The defaults `extractRecipeFromHtml` starts from
(`CONFIG.DEFAULT_RECIPE`: servings 4, prepTime 15, cookTime 30). -/
def defaultRecipe (sourceUrl : String) : Recipe :=
  { url := sourceUrl, title := "Recipe from " ++ hostnameOf sourceUrl,
    ingredients := [], servings := 4, prepTime := 15, cookTime := 30,
    steps := [], imageUrl := none }

/-- `RecipeExtractor.extractRecipeFromHtml` (`js/recipeExtractor.js`):
defaults, then JSON-LD (early return when it fills both lists), then
microdata (likewise), then HTML patterns with placeholder fills. -/
def extractRecipeFromHtml (html sourceUrl : String) : Recipe :=
  match extractFromJsonLd html.data with
  | some patch =>
    let r₁ := applyPatch (defaultRecipe sourceUrl) patch
    if 0 < r₁.ingredients.length && 0 < r₁.steps.length then r₁
    else microdataStage html r₁
  | none => microdataStage html (defaultRecipe sourceUrl)

/-! ## Concrete example inputs used by claim theorems and witnesses -/

/-- A candidate on which every rule of `validateRecipe` passes, while its
only ingredient's sanitized `item` is empty: the raw ingredient count is 1,
so no error is pushed, yet the filtered ingredient list is empty. -/
def c1Cex : Candidate :=
  { url := "http://example.com/r", title := "Cake", servings := 4,
    prepTime := 15, cookTime := 30,
    ingredients := [{ amount := "", unit := "", item := "" }],
    steps := ["Mix the batter well"], imageUrl := none }

/-- A candidate on which every rule of `validateRecipe` passes with a
nonempty sanitized ingredient. -/
def c1Wit : Candidate :=
  { url := "http://example.com/r", title := "Cake", servings := 4,
    prepTime := 15, cookTime := 30,
    ingredients := [{ amount := "2", unit := "cups", item := "flour" }],
    steps := ["Mix the batter well"], imageUrl := none }

/-- HTML with a first pattern family matching twice and a second family
matching once. -/
def c6Html1 : String :=
  "<li class=\"ingredient\">1 cup sugar</li><li class=\"ingredient\">2 cups flour</li><li itemprop=\"recipeIngredient\">3 tbsp milk</li>"

/-- HTML with a first pattern family matching four times and a second
family matching once. -/
def c6Html2 : String :=
  "<li class=\"ingredient\">1 cup sugar</li><li class=\"ingredient\">2 cups flour</li><li class=\"ingredient\">4 cups rice</li><li class=\"ingredient\">5 cups corn</li><li itemprop=\"recipeIngredient\">3 tbsp milk</li>"

set_option maxRecDepth 8192

/-! ## Supporting lemmas -/

theorem noEntities_cons {c : Char} {t : List Char}
    (h : noEntities (c :: t) = true) :
    (c = '&' → canDecodeAt (c :: t) = false) ∧ noEntities t = true := by
  unfold noEntities at h
  rw [Bool.and_eq_true] at h
  refine ⟨fun hc => ?_, h.2⟩
  subst hc
  simpa using h.1

theorem browserDecodeGo_id :
    ∀ fuel cs, noEntities cs = true → browserDecodeGo fuel cs = cs := by
  intro fuel
  induction fuel with
  | zero => intro cs _; rfl
  | succ n ih =>
    intro cs h
    cases cs with
    | nil => rfl
    | cons c t =>
      obtain ⟨h1, h2⟩ := noEntities_cons h
      unfold browserDecodeGo
      by_cases hc : c = '&'
      · subst hc
        have hcan := h1 rfl
        have hpr : parseCharRef ('&' :: t) = none := by
          cases hpr : parseCharRef ('&' :: t) with
          | none => rfl
          | some v =>
            rw [canDecodeAt, hpr] at hcan
            simp at hcan
        simp [hpr, ih t h2]
      · simp [hc, ih t h2]

theorem replaceAllLit_id (needle rep : List Char)
    (hne : needle.head? = some '&')
    (htrig : ∀ u, needle.isPrefixOf u = true → canDecodeAt u = true) :
    ∀ fuel cs, noEntities cs = true → replaceAllLit needle rep fuel cs = cs := by
  intro fuel
  induction fuel with
  | zero => intro cs _; rfl
  | succ n ih =>
    intro cs h
    cases cs with
    | nil => rfl
    | cons c t =>
      obtain ⟨h1, h2⟩ := noEntities_cons h
      have hpre : needle.isPrefixOf (c :: t) = false := by
        by_contra hx
        rw [Bool.not_eq_false] at hx
        have hc : c = '&' := by
          cases needle with
          | nil => simp at hne
          | cons a as =>
            obtain ⟨ts, hts⟩ := List.isPrefixOf_iff_prefix.mp hx
            have ha : a = '&' := by simpa using hne
            subst ha
            exact (List.cons.injEq _ _ _ _ ▸ hts).1.symm
        have htr := htrig (c :: t) hx
        rw [h1 hc] at htr
        exact Bool.false_ne_true htr
      unfold replaceAllLit
      simp [hpre, ih t h2]

theorem decRefAt_head {cs : List Char} {v : Char × Nat}
    (h : decRefAt cs = some v) : ∃ t, cs = '&' :: t := by
  unfold decRefAt at h
  split at h
  · next rest => exact ⟨_, rfl⟩
  · exact absurd h (by simp)

theorem hexRefAt_head {cs : List Char} {v : Char × Nat}
    (h : hexRefAt cs = some v) : ∃ t, cs = '&' :: t := by
  unfold hexRefAt at h
  split at h
  · next rest => exact ⟨_, rfl⟩
  · exact absurd h (by simp)

theorem decPassGo_id :
    ∀ fuel cs, noEntities cs = true → decPassGo fuel cs = cs := by
  intro fuel
  induction fuel with
  | zero => intro cs _; rfl
  | succ n ih =>
    intro cs h
    cases cs with
    | nil => rfl
    | cons c t =>
      obtain ⟨h1, h2⟩ := noEntities_cons h
      have hdr : decRefAt (c :: t) = none := by
        cases hdr : decRefAt (c :: t) with
        | none => rfl
        | some v =>
          obtain ⟨t', ht'⟩ := decRefAt_head hdr
          have hc : c = '&' := by injection ht' with hc _
          have hcan := h1 hc
          rw [canDecodeAt, hdr] at hcan
          simp at hcan
      unfold decPassGo
      simp [hdr, ih t h2]

theorem hexPassGo_id :
    ∀ fuel cs, noEntities cs = true → hexPassGo fuel cs = cs := by
  intro fuel
  induction fuel with
  | zero => intro cs _; rfl
  | succ n ih =>
    intro cs h
    cases cs with
    | nil => rfl
    | cons c t =>
      obtain ⟨h1, h2⟩ := noEntities_cons h
      have hdr : hexRefAt (c :: t) = none := by
        cases hdr : hexRefAt (c :: t) with
        | none => rfl
        | some v =>
          obtain ⟨t', ht'⟩ := hexRefAt_head hdr
          have hc : c = '&' := by injection ht' with hc _
          have hcan := h1 hc
          rw [canDecodeAt, hdr] at hcan
          simp at hcan
      unfold hexPassGo
      simp [hdr, ih t h2]

theorem key_trig {p : List Char × List Char} (hmem : p ∈ entityPairs) :
    ∀ u, p.1.isPrefixOf u = true → canDecodeAt u = true := by
  intro u hu
  have hany : entityPairs.any (fun q => q.1.isPrefixOf u) = true :=
    List.any_eq_true.mpr ⟨p, hmem, hu⟩
  simp [canDecodeAt, hany]

theorem pairs_head : ∀ p ∈ entityPairs, p.1.head? = some '&' := by decide

theorem foldl_replace_id (ps : List (List Char × List Char))
    (hp : ∀ p ∈ ps, p.1.head? = some '&' ∧
      ∀ u, p.1.isPrefixOf u = true → canDecodeAt u = true)
    (cs : List Char) (h : noEntities cs = true) :
    ps.foldl (fun acc p => replaceAllLit p.1 p.2 (acc.length + 1) acc) cs = cs := by
  induction ps with
  | nil => rfl
  | cons p pt ih =>
    simp only [List.foldl_cons]
    rw [replaceAllLit_id p.1 p.2 (hp p (by simp)).1 (hp p (by simp)).2 _ _ h]
    exact ih fun q hq => hp q (by simp [hq])

theorem entityMapPass_id (cs : List Char) (h : noEntities cs = true) :
    entityMapPass cs = cs := by
  unfold entityMapPass
  exact foldl_replace_id entityPairs
    (fun p hp => ⟨pairs_head p hp, key_trig hp⟩) cs h

theorem decode_fixpoint (s : String) (h : noEntities s.data = true) :
    decodeHtmlEntities s = s := by
  unfold decodeHtmlEntities
  by_cases hs : s = ""
  · simp [hs]
  · rw [if_neg hs]
    unfold browserDecode decPass hexPass
    rw [browserDecodeGo_id _ _ h, entityMapPass_id _ h,
      decPassGo_id _ _ h, hexPassGo_id _ _ h]

theorem escapeSpecial_safe (l : List Char) :
    ((l.flatMap escapeSpecial).all fun c =>
      !(c = '<' || c = '>' || c = '"' || c = '\'')) = true := by
  induction l with
  | nil => rfl
  | cons c t ih =>
    rw [List.flatMap_cons, List.all_append, ih, Bool.and_true]
    unfold escapeSpecial
    split_ifs with h1 h2 h3 h4 h5
    · decide
    · decide
    · decide
    · decide
    · decide
    · simp [h1, h2, h4, h5]

theorem all_jsTrim {p : Char → Bool} {l : List Char} (h : l.all p = true) :
    (jsTrim l).all p = true := by
  rw [List.all_eq_true] at h ⊢
  intro x hx
  apply h
  unfold jsTrim at hx
  rw [List.mem_reverse] at hx
  have hx2 := (List.dropWhile_sublist _).subset hx
  rw [List.mem_reverse] at hx2
  exact (List.dropWhile_sublist _).subset hx2

theorem mem_ite_nil {m b : String} {c : Prop} [Decidable c] :
    (m ∈ if c then [b] else []) ↔ (c ∧ m = b) := by
  split <;> simp_all

/-! ## Claim theorems -/

/-- Claim C9: the entity decoder is idempotent on already-decoded plain
text: for every string containing no remaining HTML entities,
`decode (decode s) = decode s`. -/
theorem c9_decode_idempotent (s : String) (h : noEntities s.data = true) :
    decodeHtmlEntities (decodeHtmlEntities s) = decodeHtmlEntities s := by
  simp only [decode_fixpoint s h]

theorem c9_decode_idempotent_witness :
    noEntities ("fish & chips" : String).data = true ∧
    decodeHtmlEntities (decodeHtmlEntities "fish & chips") =
      decodeHtmlEntities "fish & chips" :=
  ⟨by decide, c9_decode_idempotent "fish & chips" (by decide)⟩

/-- Claim C10: for every input, the output of `Validator.sanitizeText`
contains no raw `<` or `>` and no unescaped `"` or `'` characters: scripts
and tags are removed and remaining special characters are entity-escaped. -/
theorem c10_sanitize_no_raw_markup (s : String) :
    ((sanitizeText s).data.all fun c =>
      !(c = '<' || c = '>' || c = '"' || c = '\'')) = true := by
  unfold sanitizeText
  by_cases hs : s = ""
  · rw [if_pos hs]; rfl
  · rw [if_neg hs]
    have hmk : ∀ l : List Char, (String.mk l).data = l := fun _ => rfl
    rw [hmk]
    exact all_jsTrim (escapeSpecial_safe _)

/-- Claim C5: ISO-8601 `PT#H#M` durations convert to total minutes with
absent groups counted as zero (`PT1H30M` ↦ 90, `PT45M` ↦ 45, `PT2H` ↦ 120);
when neither group is present the `parseDuration` result is falsy, so the
`prepTime`/`cookTime` field is never set and keeps its default. -/
theorem c5_parse_duration :
    parseDuration "PT1H30M" = some 90 ∧ parseDuration "PT45M" = some 45 ∧
    parseDuration "PT2H" = some 120 ∧
    ∀ s : String, noDurGroups s = true → durationToSet s = none := by
  refine ⟨by decide, by decide, by decide, ?_⟩
  intro s h
  unfold durationToSet parseDuration
  by_cases hs : s = ""
  · simp [hs]
  · rw [if_neg hs]
    unfold noDurGroups at h
    cases hg : durGroups s with
    | none => simp [hg]
    | some p =>
      obtain ⟨ho, mo⟩ := p
      rw [hg] at h
      cases ho <;> cases mo <;> simp_all

theorem c5_parse_duration_witness :
    noDurGroups "45 minutes" = true ∧ durationToSet "45 minutes" = none :=
  ⟨by decide, c5_parse_duration.2.2.2 "45 minutes" (by decide)⟩

/-- Claim C1 is false as stated: `validateRecipe` evaluates the minimum
count rule on the raw input arrays, before filtering, so a recipe whose only
ingredient sanitizes to an empty `item` is reported valid with an empty
filtered ingredient list. -/
theorem c1_counterexample :
    (validateRecipe c1Cex).isValid = true ∧
    ((validateRecipe c1Cex).validatedRecipe.map fun v => v.ingredients) =
      some (some []) := by
  decide

/-- Claim C1 (amended): when `validateRecipe` reports `isValid`, the raw
input had at least one ingredient and at least one step; the minimum-count
rule is checked on the raw arrays and the filter is applied afterwards, so
the validated recipe's filtered collections may be empty. -/
theorem c1_min_count_on_raw_arrays (r : Candidate)
    (h : (validateRecipe r).isValid = true) :
    1 ≤ r.ingredients.length ∧ 1 ≤ r.steps.length ∧
    (validateRecipe r).validatedRecipe = some (validatedFieldsOf r) ∧
    (validatedFieldsOf r).ingredients = some (validateIngredients r.ingredients) ∧
    (validatedFieldsOf r).steps = some (validateSteps r.steps) := by
  have he : recipeErrors r = [] := by
    simpa [validateRecipe, List.isEmpty_iff] using h
  have hi : ¬ (r.ingredients.length < 1) := by
    intro hc
    rw [recipeErrors] at he
    simp [hc, List.append_eq_nil] at he
  have hst : ¬ (r.steps.length < 1) := by
    intro hc
    rw [recipeErrors] at he
    simp [hc, List.append_eq_nil] at he
  refine ⟨by omega, by omega, ?_, ?_, ?_⟩
  · simp [validateRecipe, he]
  · simp [validatedFieldsOf, hi]
  · simp [validatedFieldsOf, hst]

theorem c1_min_count_on_raw_arrays_witness :
    1 ≤ c1Wit.ingredients.length ∧ 1 ≤ c1Wit.steps.length ∧
    (validateRecipe c1Wit).validatedRecipe = some (validatedFieldsOf c1Wit) ∧
    (validatedFieldsOf c1Wit).ingredients =
      some (validateIngredients c1Wit.ingredients) ∧
    (validatedFieldsOf c1Wit).steps = some (validateSteps c1Wit.steps) :=
  c1_min_count_on_raw_arrays c1Wit (by decide)

/-- Claim C4: every validation rule is checked independently and all
applicable rule-failure messages are collected; `isValid` holds exactly when
the error list is empty, and `validatedRecipe` is null exactly when some
rule failed. -/
theorem c4_all_errors_collected (r : Candidate) :
    ((validateRecipe r).isValid = true ↔ (validateRecipe r).errors = []) ∧
    ((validateRecipe r).validatedRecipe = none ↔ (validateRecipe r).errors ≠ []) ∧
    ("Invalid recipe URL" ∈ (validateRecipe r).errors ↔ validateUrl r.url = none) ∧
    ("Invalid recipe title" ∈ (validateRecipe r).errors ↔ validateTitle r.title = none) ∧
    ("Invalid serving count" ∈ (validateRecipe r).errors ↔
      validateServings r.servings = none) ∧
    ("Invalid preparation time" ∈ (validateRecipe r).errors ↔
      validateTime r.prepTime = none) ∧
    ("Invalid cooking time" ∈ (validateRecipe r).errors ↔
      validateTime r.cookTime = none) ∧
    ("Recipe must have at least one ingredient" ∈ (validateRecipe r).errors ↔
      r.ingredients.length < 1) ∧
    ("Recipe must have at least one step" ∈ (validateRecipe r).errors ↔
      r.steps.length < 1) := by
  refine ⟨?_, ?_, ?_, ?_, ?_, ?_, ?_, ?_, ?_⟩
  · simp [validateRecipe, List.isEmpty_iff]
  · by_cases h : (recipeErrors r).isEmpty <;>
      simp_all [validateRecipe, List.isEmpty_iff]
  all_goals
    simp [validateRecipe, recipeErrors, List.mem_append, mem_ite_nil]

theorem ingredientFill_ne_nil (m : Bool) (r : Recipe) :
    (ingredientFill m r).ingredients ≠ [] := by
  unfold ingredientFill
  split_ifs <;> simp_all [List.length_eq_zero]

theorem ingredientFill_steps (m : Bool) (r : Recipe) :
    (ingredientFill m r).steps = r.steps := by
  unfold ingredientFill
  split_ifs <;> rfl

theorem stepFill_ne_nil (m : Bool) (r : Recipe) :
    (stepFill m r).steps ≠ [] := by
  unfold stepFill
  split_ifs <;> simp_all [List.length_eq_zero]

theorem stepFill_ingredients (m : Bool) (r : Recipe) :
    (stepFill m r).ingredients = r.ingredients := by
  unfold stepFill
  split_ifs <;> rfl

theorem patternStage_nonempty (html : String) (r : Recipe) :
    (patternStage html r).ingredients ≠ [] ∧ (patternStage html r).steps ≠ [] := by
  unfold patternStage
  refine ⟨?_, stepFill_ne_nil _ _⟩
  rw [stepFill_ingredients]
  exact ingredientFill_ne_nil _ _

theorem microdataStage_nonempty (html : String) (r : Recipe) :
    (microdataStage html r).ingredients ≠ [] ∧
    (microdataStage html r).steps ≠ [] := by
  unfold microdataStage
  cases hmd : extractFromMicrodata html.data with
  | none => exact patternStage_nonempty html r
  | some md =>
    by_cases hg : 0 < (microMerge md r).ingredients.length ∧
        0 < (microMerge md r).steps.length
    · have : (0 < (microMerge md r).ingredients.length &&
          0 < (microMerge md r).steps.length) = true := by
        simp [hg.1, hg.2]
      simp only [this, if_true]
      exact ⟨List.ne_nil_of_length_pos hg.1, List.ne_nil_of_length_pos hg.2⟩
    · have : (0 < (microMerge md r).ingredients.length &&
          0 < (microMerge md r).steps.length) = false := by
        rcases not_and_or.mp hg with h | h <;> simp [h]
      simp only [this, Bool.false_eq_true, if_false]
      exact patternStage_nonempty html _

/-- Claim C2: for every HTML input and source URL, `extractRecipeFromHtml`
returns a recipe with a nonempty ingredients list and a nonempty steps
list: the structured-data early returns are guarded on both lists being
filled, and when a field could not be extracted by any strategy the
pattern path fills it with an explicit could-not-extract placeholder entry
rather than an empty collection. -/
theorem c2_extracted_recipe_nonempty :
    (∀ html url : String,
      (extractRecipeFromHtml html url).ingredients ≠ [] ∧
      (extractRecipeFromHtml html url).steps ≠ []) ∧
    (∀ (html : String) (r : Recipe),
      (extractFromHtmlPatterns html.data r).ingredients = [] →
      (patternStage html r).ingredients =
        [{ amount := "", unit := "",
           item := if isMinimalContent html then
             "Could not extract ingredients - this site may require JavaScript to load content. Try using the photo feature instead."
           else "Could not extract ingredients - please check the original recipe" }]) ∧
    (∀ (html : String) (r : Recipe),
      (extractFromHtmlPatterns html.data r).steps = [] →
      (patternStage html r).steps =
        [if isMinimalContent html then
           "Could not extract instructions - this site may require JavaScript to load content. Try using the photo feature instead."
         else "Could not extract instructions - please check the original recipe"]) := by
  refine ⟨?_, ?_, ?_⟩
  · intro html url
    unfold extractRecipeFromHtml
    cases hj : extractFromJsonLd html.data with
    | none => exact microdataStage_nonempty html _
    | some patch =>
      by_cases hg : 0 < (applyPatch (defaultRecipe url) patch).ingredients.length ∧
          0 < (applyPatch (defaultRecipe url) patch).steps.length
      · have hb : (0 < (applyPatch (defaultRecipe url) patch).ingredients.length &&
            0 < (applyPatch (defaultRecipe url) patch).steps.length) = true := by
          simp [hg.1, hg.2]
        simp only [hb, if_true]
        exact ⟨List.ne_nil_of_length_pos hg.1, List.ne_nil_of_length_pos hg.2⟩
      · have hb : (0 < (applyPatch (defaultRecipe url) patch).ingredients.length &&
            0 < (applyPatch (defaultRecipe url) patch).steps.length) = false := by
          rcases not_and_or.mp hg with h | h <;> simp [h]
        simp only [hb, Bool.false_eq_true, if_false]
        exact microdataStage_nonempty html _
  · intro html r h
    unfold patternStage
    rw [stepFill_ingredients]
    unfold ingredientFill
    rw [h]
    simp
  · intro html r h
    unfold patternStage stepFill
    rw [ingredientFill_steps, h]
    simp

theorem c2_extracted_recipe_nonempty_witness :
    (patternStage "plain text only" (defaultRecipe "x")).ingredients =
      [{ amount := "", unit := "",
         item := if isMinimalContent "plain text only" then
           "Could not extract ingredients - this site may require JavaScript to load content. Try using the photo feature instead."
         else "Could not extract ingredients - please check the original recipe" }] ∧
    (patternStage "plain text only" (defaultRecipe "x")).steps =
      [if isMinimalContent "plain text only" then
         "Could not extract instructions - this site may require JavaScript to load content. Try using the photo feature instead."
       else "Could not extract instructions - please check the original recipe"] :=
  ⟨c2_extracted_recipe_nonempty.2.1 "plain text only" (defaultRecipe "x")
      (by decide),
   c2_extracted_recipe_nonempty.2.2 "plain text only" (defaultRecipe "x")
      (by decide)⟩

/-- Claim C3 is false as stated: the single-string instruction split
boundary is a newline or a `N. ` numbering token, not a sentence boundary,
so `"Mix. Cook."` is not split; it yields the single step `"Mix. Cook."`
rather than both fragments. -/
theorem c3_counterexample :
    parseInstructions (Json.str "Mix. Cook.") = some ["Mix. Cook."] ∧
    ¬ ∃ l : List String,
        parseInstructions (Json.str "Mix. Cook.") = some l ∧ 2 ≤ l.length := by
  have h : parseInstructions (Json.str "Mix. Cook.") = some ["Mix. Cook."] := by
    decide
  refine ⟨h, ?_⟩
  rintro ⟨l, hl, h2⟩
  rw [h] at hl
  injection hl with hl
  subst hl
  simp at h2

/-- Claim C3 (amended): a single-string instructions field is split on
newlines or on `N. ` numbering tokens, each fragment trimmed and
entity-decoded, and fragments of 5 or fewer characters dropped; a string
with no newline or numbering boundary, such as `"Mix. Cook."`, is not
split and yields that single fragment as the only step. -/
theorem c3_instruction_string_split :
    (∀ s : String, parseInstructions (Json.str s) =
      some (((splitInstr s.data).map
        (fun f => decodeHtmlEntities (String.mk (jsTrim f)))).filter
          (fun t => t.length > 5))) ∧
    parseInstructions (Json.str "1. Mix the batter. 2. Cook it well.") =
      some ["Mix the batter.", "Cook it well."] ∧
    parseInstructions (Json.str "Stir.\nMix well thoroughly.") =
      some ["Mix well thoroughly."] ∧
    parseInstructions (Json.str "Mix. Cook.") = some ["Mix. Cook."] :=
  ⟨fun _ => rfl, by decide, by decide, by decide⟩

/-- Claim C8: the ingredient-line normalizer parses `"2 cups flour"` into
amount `2`, unit `cups`, item `flour`, and `"salt"` into an item-only
record; whenever neither the primary quantity-unit-item pattern nor the
looser fallback pattern matches, the entire line becomes the item with
empty amount and unit.  Both normalizer variants (the per-line parse of
`parseIngredients` and `OCRProcessor.parseIngredientLine`) are covered. -/
theorem c8_ingredient_line_normalizer :
    jsonLdIngredientLine "2 cups flour".data =
      { amount := "2", unit := "cups", item := "flour" } ∧
    jsonLdIngredientLine "salt".data =
      { amount := "", unit := "", item := "salt" } ∧
    parseIngredientLine "2 cups flour" =
      { amount := "2", unit := "cups", item := "flour" } ∧
    parseIngredientLine "salt" = { amount := "", unit := "", item := "salt" } ∧
    (∀ text : List Char, matchFull false jsonLdIngP1 text = none →
      matchFull false jsonLdIngP2 text = none →
      jsonLdIngredientLine text =
        { amount := "", unit := "", item := String.mk text }) ∧
    (∀ line : String, matchFull false ocrIngP1 line.data = none →
      matchFull false ocrIngP2 line.data = none →
      parseIngredientLine line = { amount := "", unit := "", item := line }) := by
  refine ⟨by decide, by decide, by decide, by decide, ?_, ?_⟩
  · intro t h1 h2
    unfold jsonLdIngredientLine
    rw [h1, h2]
  · intro l h1 h2
    unfold parseIngredientLine
    rw [h1, h2]

theorem pushAccepted_mem {texts : List (List Char)} {acc : List Ingredient}
    {ing : Ingredient} (h : ing ∈ pushAccepted acc texts) :
    ing ∈ acc ∨ ∃ t : String, ing = parseIngredientText t ∧
      acceptIngredient t = true := by
  induction texts generalizing acc with
  | nil => exact Or.inl h
  | cons raw rest ih =>
    unfold pushAccepted at h
    rw [List.foldl_cons] at h
    rcases ih h with hin | hex
    · by_cases hc : acceptIngredient (cleanExtractedText raw) = true
      · simp only [hc, if_true, List.mem_append, List.mem_singleton] at hin
        rcases hin with hin | hin
        · exact Or.inl hin
        · exact Or.inr ⟨cleanExtractedText raw, hin, hc⟩
      · simp only [Bool.not_eq_true] at hc
        simp only [hc, Bool.false_eq_true, if_false] at hin
        exact Or.inl hin
    · exact Or.inr hex

theorem familyLoop_mem {pats : List (List RItem)} {html : List Char}
    {acc : List Ingredient} {ing : Ingredient}
    (h : ing ∈ ingredientFamilyLoop pats html acc) :
    ing ∈ acc ∨ ∃ t : String, ing = parseIngredientText t ∧
      acceptIngredient t = true := by
  induction pats generalizing acc with
  | nil => exact Or.inl h
  | cons pat rest ih =>
    unfold ingredientFamilyLoop at h
    by_cases hc : 2 < (pushAccepted acc (capturesOf pat html)).length
    · rw [if_pos hc] at h
      exact pushAccepted_mem h
    · rw [if_neg hc] at h
      rcases ih h with h1 | hex
      · exact pushAccepted_mem h1
      · exact Or.inr hex

/-- Claim C6: the ingredient pattern cascade stops trying further pattern
families exactly when more than 2 ingredients have accumulated; a family
yielding only 1 or 2 accepted fragments does not by itself terminate the
cascade.  On `c6Html1` the first family yields 2 fragments and the cascade
continues into the second family (3 ingredients total); on `c6Html2` the
first family yields 4 and the later families are never tried. -/
theorem c6_confidence_threshold :
    (∀ (pat : List RItem) (rest : List (List RItem)) (html : List Char)
        (acc : List Ingredient),
      (2 < (pushAccepted acc (capturesOf pat html)).length →
        ingredientFamilyLoop (pat :: rest) html acc =
          pushAccepted acc (capturesOf pat html)) ∧
      ((pushAccepted acc (capturesOf pat html)).length ≤ 2 →
        ingredientFamilyLoop (pat :: rest) html acc =
          ingredientFamilyLoop rest html
            (pushAccepted acc (capturesOf pat html)))) ∧
    ingredientFamilyLoop ingredientPatterns c6Html1.data [] =
      [{ amount := "1", unit := "cup", item := "sugar" },
       { amount := "2", unit := "cups", item := "flour" },
       { amount := "3", unit := "tbsp", item := "milk" }] ∧
    ingredientFamilyLoop ingredientPatterns c6Html2.data [] =
      [{ amount := "1", unit := "cup", item := "sugar" },
       { amount := "2", unit := "cups", item := "flour" },
       { amount := "4", unit := "cups", item := "rice" },
       { amount := "5", unit := "cups", item := "corn" }] := by
  refine ⟨?_, by decide, by decide⟩
  intro pat rest html acc
  constructor
  · intro h
    conv_lhs => unfold ingredientFamilyLoop
    exact if_pos h
  · intro h
    conv_lhs => unfold ingredientFamilyLoop
    exact if_neg (by omega)

theorem c6_confidence_threshold_witness :
    ingredientFamilyLoop
        [attrMarkerPat "<li" "class" "ingredient" "</li>",
         attrLitCapPat "<li" "itemprop=\"recipeIngredient\"" "</li>"]
        c6Html1.data [] =
      ingredientFamilyLoop
        [attrLitCapPat "<li" "itemprop=\"recipeIngredient\"" "</li>"]
        c6Html1.data
        (pushAccepted []
          (capturesOf (attrMarkerPat "<li" "class" "ingredient" "</li>")
            c6Html1.data)) :=
  (c6_confidence_threshold.1 (attrMarkerPat "<li" "class" "ingredient" "</li>")
    [attrLitCapPat "<li" "itemprop=\"recipeIngredient\"" "</li>"]
    c6Html1.data []).2 (by decide)

/-- Claim C7: an ingredient fragment is accepted by the pattern-family
cascade only if, after tag-stripping and cleaning, it is longer than 2
characters and is not boilerplate; `"Advertisement"` and every
600-character fragment are boilerplate, `"2 tbsp olive oil"` is not. -/
theorem c7_boilerplate_filter :
    (∀ (html : List Char) (ing : Ingredient),
      ing ∈ ingredientFamilyLoop ingredientPatterns html [] →
      ∃ t : String, ing = parseIngredientText t ∧ t.length > 2 ∧
        isBoilerplateText t = false) ∧
    isBoilerplateText "Advertisement" = true ∧
    (∀ s : String, s.length = 600 → isBoilerplateText s = true) ∧
    isBoilerplateText "2 tbsp olive oil" = false := by
  refine ⟨?_, by decide, ?_, by decide⟩
  · intro html ing h
    rcases familyLoop_mem h with h0 | ⟨t, ht, hacc⟩
    · simp at h0
    · simp only [acceptIngredient, Bool.and_eq_true, Bool.not_eq_true',
        decide_eq_true_eq] at hacc
      exact ⟨t, ht, hacc.1.2, hacc.2⟩
  · intro s h
    unfold isBoilerplateText
    simp [h]

theorem c7_boilerplate_filter_witness :
    (∃ t : String,
      ({ amount := "1", unit := "cup", item := "sugar" } : Ingredient) =
        parseIngredientText t ∧ t.length > 2 ∧ isBoilerplateText t = false) ∧
    isBoilerplateText (String.mk (List.replicate 600 'a')) = true :=
  ⟨c7_boilerplate_filter.1 c6Html1.data
      { amount := "1", unit := "cup", item := "sugar" } (by decide),
   c7_boilerplate_filter.2.2.1 (String.mk (List.replicate 600 'a'))
      (by decide)⟩

theorem c8_ingredient_line_normalizer_witness :
    jsonLdIngredientLine "".data = { amount := "", unit := "", item := "" } ∧
    parseIngredientLine "a\nb" = { amount := "", unit := "", item := "a\nb" } :=
  ⟨c8_ingredient_line_normalizer.2.2.2.2.1 "".data (by decide) (by decide),
   c8_ingredient_line_normalizer.2.2.2.2.2 "a\nb" (by decide) (by decide)⟩

end RecipeApp
